import Mathlib

/-!
# Verification of the ProtonMail MCP server (barhatch/protonmail-mcp-server)

A shallow embedding, in Lean 4, of the parts of the TypeScript sources that
the specification's claims are about:

* `src/utils/helpers.ts` — `extractEmailAddress`, `bytesToMB`;
* `src/services/analytics-service.ts` — the `AnalyticsService` class
  (`updateEmails`, `processContacts`, `updateContact`, `getEmailStats`,
  `calculateVolumeTrends`, `getVolumeTrends`);
* `src/services/simple-imap-service.ts` — `truncateBody` and the
  `SimpleIMAPService` class (`getEmails` range computation, `getEmailById`,
  `searchEmails` criteria construction, `markEmailRead`, `starEmail`,
  `moveEmail`, `bulkMoveEmails`, `deleteEmail`, `createFolder`,
  `deleteFolder`, `renameFolder`);
* `src/index.ts` — the `bulk_delete_emails` tool dispatch case and the
  surrounding catch-all error payload.

Modelling conventions:

* JavaScript `Date` values are modelled as `Int` milliseconds since the epoch
  (only ordering, subtraction and calendar-day extraction are used).
* JavaScript `Map` objects are modelled as association lists in insertion
  order (`Map.set` replaces in place or appends, `Map.delete` removes,
  iteration follows insertion order), matching ECMAScript `Map` semantics.
* Asynchronous methods that may `throw` are modelled as functions returning
  `Except MailErr α` together with the updated service state; the underlying
  IMAP provider (`ImapFlow`) is modelled by an oracle `provRes` mapping each
  provider call to `none` (success) or `some e` (the raised provider error),
  and every issued provider call is recorded in a `calls` trace.
* JavaScript floating-point numbers used only in derived statistics
  (averages, megabyte conversions) are modelled over `ℚ` with exact
  arithmetic; `Math.round(x)` is `⌊x + 1/2⌋`.
-/

/-! ## Data model (`src/types/index.ts`) -/

/-- `EmailAttachment` from `src/types/index.ts` (the raw `content` buffer and
`contentId` carry no information relevant to the claims beyond presence, so
`content` is modelled as a `Bool` presence flag). -/
structure EmailAttachment where
  filename : String
  contentType : String
  size : Nat
  hasContent : Bool
  contentId : Option String
deriving DecidableEq, Repr

/-- `EmailMessage` from `src/types/index.ts`.  The TypeScript fields `from`
and `to` are Lean keywords and are rendered `fromAddr` / `toAddrs`.  `date`
is epoch milliseconds. -/
structure EmailMessage where
  id : String
  fromAddr : String
  toAddrs : List String
  cc : List String
  subject : String
  body : String
  isHtml : Bool
  date : Int
  folder : String
  isRead : Bool
  isStarred : Bool
  hasAttachment : Bool
  attachments : Option (List EmailAttachment)
deriving DecidableEq, Repr

/-- `Contact` from `src/types/index.ts` (the optional `name` field is never
written by the analytics service and is omitted). -/
structure Contact where
  email : String
  emailsSent : Nat
  emailsReceived : Nat
  lastInteraction : Int
  firstInteraction : Int
deriving DecidableEq, Repr

/-- `EmailFolder` from `src/types/index.ts`. -/
structure EmailFolder where
  name : String
  path : String
  totalMessages : Nat
  unreadMessages : Nat
  specialUse : Option String
deriving DecidableEq, Repr

/-- `EmailStats` from `src/types/index.ts`.  `averageEmailsPerDay` is an
integer (the source applies `Math.round`); `storageUsedMB` is an exact
rational standing for the JS float. -/
structure EmailStats where
  totalEmails : Nat
  unreadEmails : Nat
  starredEmails : Nat
  totalFolders : Nat
  totalContacts : Nat
  averageEmailsPerDay : Int
  mostActiveContact : String
  mostUsedFolder : String
  storageUsedMB : ℚ
deriving DecidableEq, Repr

/-! ## Helpers (`src/utils/helpers.ts`) -/

/-- The inner part of a JS regex match of `<([^>]+)>` starting exactly at the
current position: one or more non-`'>'` characters followed by `'>'`.
Returns `none` when the match cannot start here (empty inner part or no
closing `'>'`). -/
def angleInner (cs : List Char) : Option (List Char) :=
  let pre := cs.takeWhile (fun c => c ≠ '>')
  if pre.isEmpty then none
  else if pre.length < cs.length then some pre else none

/-- First match of the JS regex `<([^>]+)>` over a character list, returning
the captured group: scan left to right for a `'<'` at which `angleInner`
succeeds. -/
def firstAngleMatch : List Char → Option (List Char)
  | [] => none
  | c :: rest =>
    if c = '<' then
      match angleInner rest with
      | some inner => some inner
      | none => firstAngleMatch rest
    else firstAngleMatch rest

/-- Strip leading and trailing whitespace from a character list (JS
`String.prototype.trim`, restricted to the ASCII whitespace characters
covered by `Char.isWhitespace`). -/
def trimChars (l : List Char) : List Char :=
  ((l.dropWhile Char.isWhitespace).reverse.dropWhile Char.isWhitespace).reverse

/-- JS `s.trim()` over the character-list view of a string. -/
def jsTrim (s : String) : String := String.mk (trimChars s.data)

/-- `extractEmailAddress` from `src/utils/helpers.ts`: the first
`<([^>]+)>` capture if the regex matches, otherwise the trimmed input. -/
def extractEmailAddress (s : String) : String :=
  match firstAngleMatch s.data with
  | some inner => String.mk inner
  | none => jsTrim s

/-- JS `Math.round` over an exact rational: `⌊x + 1/2⌋` (round half up). -/
def jsRound (q : ℚ) : Int := ⌊q + 1 / 2⌋

/-- `bytesToMB` from `src/utils/helpers.ts`:
`parseFloat((bytes / (1024 * 1024)).toFixed(2))`, i.e. the byte count divided
by 2^20 and rounded to two decimal places. -/
def bytesToMB (bytes : Nat) : ℚ := (jsRound ((bytes : ℚ) / 1048576 * 100) : ℚ) / 100

/-! ## AnalyticsService (`src/services/analytics-service.ts`)

The mutable class fields `emails`, `contacts`, `statsCache` and
`lastCacheUpdate` become an explicit `AnalyticsState`; `Date.now()` becomes
an explicit `now : Int` argument.  The `analyticsCache` slot and
`getEmailAnalytics` are not needed by any claim and are omitted from the
state (`getVolumeTrends` calls `calculateVolumeTrends` directly, bypassing
every cache). -/

/-- One contact interaction folded into the contact map: `addr` is the
already-extracted bare address, `sent` is `true` for a recipient
(`'sent'` in the source) and `false` for a sender (`'received'`). -/
structure Interaction where
  addr : String
  sent : Bool
  date : Int
deriving DecidableEq, Repr

/-- The interactions contributed by one message in `processContacts`: the
sender first (guarded by the JS truthiness check `if (fromAddress)`, i.e.
skipped when extraction yields the empty string), then each recipient in
order under the same guard. -/
def msgInteractions (e : EmailMessage) : List Interaction :=
  (if extractEmailAddress e.fromAddr ≠ "" then
    [⟨extractEmailAddress e.fromAddr, false, e.date⟩] else [])
  ++ e.toAddrs.filterMap (fun t =>
      if extractEmailAddress t ≠ "" then some ⟨extractEmailAddress t, true, e.date⟩ else none)

/-- All interactions of a snapshot, in processing order (messages in list
order; within a message, sender then recipients). -/
def interactionsOf (emails : List EmailMessage) : List Interaction :=
  (emails.map msgInteractions).flatten

/-- Lookup in an insertion-ordered association list (JS `Map.get`): the
value of the first pair whose key matches. -/
def lookupA {α : Type} (m : List (String × α)) (k : String) : Option α :=
  match m with
  | [] => none
  | p :: rest => if p.1 = k then some p.2 else lookupA rest k

/-- The body of `updateContact` once the contact record exists: bump the
matching counter, then widen `lastInteraction` / `firstInteraction`. -/
def applyInteraction (c : Contact) (sent : Bool) (date : Int) : Contact :=
  let c1 := if sent then { c with emailsSent := c.emailsSent + 1 }
            else { c with emailsReceived := c.emailsReceived + 1 }
  let c2 := if date > c1.lastInteraction then { c1 with lastInteraction := date } else c1
  if date < c2.firstInteraction then { c2 with firstInteraction := date } else c2

/-- The fresh record created by `updateContact` for an unseen address: zero
counters, both interaction timestamps initialised to the current date. -/
def newContact (a : String) (date : Int) : Contact :=
  ⟨a, 0, 0, date, date⟩

/-- `updateContact` from `AnalyticsService`: create-if-missing (appending at
the end, as `Map.set` does for a new key), then apply the interaction to the
stored record in place. -/
def updateContact (contacts : List (String × Contact)) (i : Interaction) :
    List (String × Contact) :=
  match lookupA contacts i.addr with
  | some _ => contacts.map (fun p =>
      if p.1 = i.addr then (p.1, applyInteraction p.2 i.sent i.date) else p)
  | none => contacts ++ [(i.addr, applyInteraction (newContact i.addr i.date) i.sent i.date)]

/-- `processContacts` from `AnalyticsService`: clear the map, then fold every
interaction of the snapshot (in source processing order) through
`updateContact`. -/
def processContacts (emails : List EmailMessage) : List (String × Contact) :=
  (interactionsOf emails).foldl updateContact []

/-- The `AnalyticsService` mutable fields relevant to the claims. -/
structure AnalyticsState where
  emails : List EmailMessage
  contacts : List (String × Contact)
  statsCache : Option EmailStats
  lastCacheUpdate : Option Int

/-- `updateEmails` from `AnalyticsService`: replace the snapshot, invalidate
the caches, rebuild the contact map. -/
def updateEmails (st : AnalyticsState) (emails : List EmailMessage) : AnalyticsState :=
  { st with
    emails := emails
    statsCache := none
    lastCacheUpdate := none
    contacts := processContacts emails }

/-- `isCacheValid`: a cache timestamp exists and is younger than five
minutes (300000 ms). -/
def isCacheValid (lastCacheUpdate : Option Int) (now : Int) : Bool :=
  match lastCacheUpdate with
  | none => false
  | some t => now - t < 300000

/-- The `averageEmailsPerDay` computation inside `getEmailStats`: zero for an
empty snapshot, otherwise `Math.round(totalEmails / max(1, spanInDays))`
where the span runs from the oldest to the newest message date. -/
def averageEmailsPerDay (emails : List EmailMessage) : Int :=
  match emails.map (fun e => e.date) with
  | [] => 0
  | d :: ds =>
    let oldest := ds.foldl min d
    let newest := ds.foldl max d
    let daysDiff : ℚ := max 1 (((newest - oldest : Int) : ℚ) / 86400000)
    jsRound ((emails.length : ℚ) / daysDiff)

/-- The `mostActiveContact` fold inside `getEmailStats`: iterate the contact
map in insertion order keeping the first entry that strictly exceeds the
running maximum of `emailsSent + emailsReceived`; `"N/A"` when nothing
exceeds the initial maximum of 0. -/
def mostActiveContact (contacts : List (String × Contact)) : String :=
  (contacts.foldl (fun acc p =>
    let inter := p.2.emailsSent + p.2.emailsReceived
    if inter > acc.2 then (p.1, inter) else acc) ("N/A", 0)).1

/-- Increment an insertion-ordered counting map (`folderCounts.set(f, get+1)`). -/
def bumpCount (m : List (String × Nat)) (k : String) : List (String × Nat) :=
  match lookupA m k with
  | some _ => m.map (fun p => if p.1 = k then (p.1, p.2 + 1) else p)
  | none => m ++ [(k, 1)]

/-- The `mostUsedFolder` computation inside `getEmailStats`: count messages
per folder, then keep the first folder strictly exceeding the running
maximum; `"INBOX"` when nothing exceeds 0. -/
def mostUsedFolder (emails : List EmailMessage) : String :=
  ((emails.foldl (fun m e => bumpCount m e.folder) []).foldl (fun acc p =>
    if p.2 > acc.2 then p else acc) ("INBOX", 0)).1

/-- The estimated-storage accumulation inside `getEmailStats`: body length
plus the sizes of all attachments, over all messages. -/
def totalStorageBytes (emails : List EmailMessage) : Nat :=
  emails.foldl (fun b e =>
    let b1 := b + e.body.length
    match e.attachments with
    | some atts => atts.foldl (fun x a => x + a.size) b1
    | none => b1) 0

/-- The statistics record computed by the cache-miss branch of
`getEmailStats`. -/
def computeStats (emails : List EmailMessage) (contacts : List (String × Contact)) :
    EmailStats :=
  { totalEmails := emails.length
    unreadEmails := (emails.filter (fun e => !e.isRead)).length
    starredEmails := (emails.filter (fun e => e.isStarred)).length
    totalFolders := (emails.map (fun e => e.folder)).dedup.length
    totalContacts := contacts.length
    averageEmailsPerDay := averageEmailsPerDay emails
    mostActiveContact := mostActiveContact contacts
    mostUsedFolder := mostUsedFolder emails
    storageUsedMB := bytesToMB (totalStorageBytes emails) }

/-- `getEmailStats` from `AnalyticsService`: serve the cache when present
and fresh, otherwise recompute and cache with timestamp `now`. -/
def getEmailStats (st : AnalyticsState) (now : Int) : EmailStats × AnalyticsState :=
  match st.statsCache with
  | some c =>
    if isCacheValid st.lastCacheUpdate now then (c, st)
    else
      let stats := computeStats st.emails st.contacts
      (stats, { st with statsCache := some stats, lastCacheUpdate := some now })
  | none =>
    let stats := computeStats st.emails st.contacts
    (stats, { st with statsCache := some stats, lastCacheUpdate := some now })

/-! ## Claim C1 — statistics counts after a snapshot update -/

/-- C1: for every list `S` of email messages (and any prior service state and
clock value), `updateEmails S` followed by `getEmailStats` reports
`totalEmails = |S|`, `unreadEmails` = the number of messages of `S` with
`isRead = false`, `starredEmails` = the number with `isStarred = true`, and
`totalFolders` = the number of distinct folder values occurring in `S`
(`updateEmails` unconditionally invalidates the statistics cache, so the
recomputation branch always runs). -/
theorem updateEmails_getEmailStats_counts
    (st : AnalyticsState) (S : List EmailMessage) (now : Int) :
    (getEmailStats (updateEmails st S) now).1.totalEmails = S.length ∧
    (getEmailStats (updateEmails st S) now).1.unreadEmails
      = S.countP (fun m => !m.isRead) ∧
    (getEmailStats (updateEmails st S) now).1.starredEmails
      = S.countP (fun m => m.isStarred) ∧
    (getEmailStats (updateEmails st S) now).1.totalFolders
      = (S.map (fun m => m.folder)).toFinset.card := by
  refine ⟨rfl, ?_, ?_, ?_⟩
  · simp [getEmailStats, updateEmails, computeStats, List.countP_eq_length_filter]
  · simp [getEmailStats, updateEmails, computeStats, List.countP_eq_length_filter]
  · simp [getEmailStats, updateEmails, computeStats, List.card_toFinset]

/-! ## Claim C8 — volume trends (`calculateVolumeTrends` / `getVolumeTrends`)

`calculateVolumeTrends` keys its map by UTC calendar-day strings
(`date.toISOString().split('T')[0]`) and steps the window one day at a time
from the current moment.  Days are modelled as integers: `dayKey` is the UTC
day index of an epoch-millisecond timestamp, the window anchor becomes an
explicit `nowDay` argument, and the final `localeCompare` sort on ISO-date
strings (which orders exactly chronologically) becomes a sort on day
indices. -/

/-- UTC calendar day index of an epoch-millisecond timestamp (the day part of
`toISOString`): floor division by 86400000. -/
def dayKey (ms : Int) : Int := Int.fdiv ms 86400000

/-- The comparator `(a, b) => a.date.localeCompare(b.date)` on ISO date keys:
ascending day order. -/
def keyLe (a b : Int × Nat × Nat) : Bool := decide (a.1 ≤ b.1)

/-- The window-initialisation loop of `calculateVolumeTrends`: an entry
`(day, received 0, sent 0)` for each of the `days` days `now, now-1, …`,
in insertion order. -/
def trendsInit (nowDay : Int) (days : Nat) : List (Int × Nat × Nat) :=
  (List.range days).map (fun (i : Nat) => (nowDay - (i : Int), 0, 0))

/-- The per-message update of `calculateVolumeTrends`: when the message's day
is a key of the map, bump that entry's `received` count (all volume is
attributed to `received`); otherwise leave the map unchanged. -/
def trendsBump (m : List (Int × Nat × Nat)) (d : Int) : List (Int × Nat × Nat) :=
  m.map (fun e => if e.1 = d then (e.1, e.2.1 + 1, e.2.2) else e)

/-- `calculateVolumeTrends` from `AnalyticsService`: initialise the trailing
window, fold every message through `trendsBump`, and sort the entries by
date ascending. -/
def calculateVolumeTrends (nowDay : Int) (days : Nat) (emails : List EmailMessage) :
    List (Int × Nat × Nat) :=
  (emails.foldl (fun m e => trendsBump m (dayKey e.date)) (trendsInit nowDay days)).mergeSort
    keyLe

/-- `getVolumeTrends` from `AnalyticsService`: delegates directly to
`calculateVolumeTrends` (no cache involved). -/
def getVolumeTrends (nowDay : Int) (days : Nat) (emails : List EmailMessage) :
    List (Int × Nat × Nat) :=
  calculateVolumeTrends nowDay days emails

/-- Strict ascending order on trend-entry day keys. -/
def keyLt (a b : Int × Nat × Nat) : Prop := a.1 < b.1

instance : IsAntisymm (Int × Nat × Nat) keyLt :=
  ⟨fun a b h h' => absurd (lt_trans h h') (lt_irrefl _)⟩

theorem trendsBump_map (K : List Int) (c : Int → Nat) (x : Int) :
    trendsBump (K.map (fun d => (d, c d, 0))) x
      = K.map (fun d => (d, (if d = x then c d + 1 else c d), 0)) := by
  simp only [trendsBump, List.map_map]
  refine List.map_congr_left (fun d _ => ?_)
  by_cases h : d = x <;> simp [h]

theorem foldl_trendsBump (emails : List EmailMessage) (K : List Int) (c : Int → Nat) :
    emails.foldl (fun m e => trendsBump m (dayKey e.date)) (K.map (fun d => (d, c d, 0)))
      = K.map (fun d => (d, c d + emails.countP (fun e => dayKey e.date == d), 0)) := by
  induction emails generalizing c with
  | nil => simp
  | cons e es ih =>
    simp only [List.foldl_cons, trendsBump_map, ih]
    refine List.map_congr_left (fun d _ => ?_)
    by_cases h : dayKey e.date = d
    · simp [List.countP_cons, h, eq_comm]
      omega
    · have h' : ¬ d = dayKey e.date := fun hx => h (Eq.symm hx)
      simp [List.countP_cons, h, h']


theorem trendsInit_eq (nowDay : Int) (days : Nat) :
    trendsInit nowDay days
      = ((List.range days).map (fun (i : Nat) => nowDay - (i : Int))).map
          (fun d => (d, (0 : Nat), (0 : Nat))) := by
  unfold trendsInit
  rw [List.map_map]
  refine List.map_congr_left (fun i _ => ?_)
  rfl

theorem foldl_trendsBump_zero (emails : List EmailMessage) (K : List Int) :
    emails.foldl (fun m e => trendsBump m (dayKey e.date))
        (K.map (fun d => (d, (0 : Nat), (0 : Nat))))
      = K.map (fun d => (d, emails.countP (fun e => dayKey e.date == d), 0)) := by
  have h := foldl_trendsBump emails K (fun _ => 0)
  simpa using h

theorem keys_desc_nodup (nowDay : Int) (days : Nat) :
    ((List.range days).map (fun (i : Nat) => nowDay - (i : Int))).Nodup := by
  have h1 : (List.range days).Pairwise
      (fun (a b : Nat) => nowDay - (a : Int) ≠ nowDay - (b : Int)) := by
    refine (List.pairwise_lt_range days).imp ?_
    intro a b hab heq
    omega
  exact List.pairwise_map.2 h1

/-- C8: `getVolumeTrends` over a `days`-day window anchored at day `nowDay`
returns exactly one entry per calendar day of the trailing window — the days
`nowDay - (days-1), …, nowDay` in oldest-to-newest order — where each
entry's `received` count is the number of messages whose date falls on that
day (days with no messages keeping count zero) and each entry's `sent`
count is zero regardless of the messages' direction. -/
theorem getVolumeTrends_spec (nowDay : Int) (days : Nat) (emails : List EmailMessage) :
    getVolumeTrends nowDay days emails
      = ((List.range days).reverse).map (fun (i : Nat) =>
          (nowDay - (i : Int),
           emails.countP (fun e => dayKey e.date == nowDay - (i : Int)), 0)) := by
  have hfold :
      emails.foldl (fun m e => trendsBump m (dayKey e.date)) (trendsInit nowDay days)
        = ((List.range days).map (fun (i : Nat) => nowDay - (i : Int))).map
            (fun d => (d, emails.countP (fun e => dayKey e.date == d), 0)) := by
    rw [trendsInit_eq, foldl_trendsBump_zero]
  set f : Int → Int × Nat × Nat :=
    fun d => (d, emails.countP (fun e => dayKey e.date == d), 0) with hf
  set L := ((List.range days).map (fun (i : Nat) => nowDay - (i : Int))).map f with hL
  have hgoalR :
      ((List.range days).reverse).map (fun (i : Nat) =>
          (nowDay - (i : Int),
           emails.countP (fun e => dayKey e.date == nowDay - (i : Int)), 0))
        = L.reverse := by
    rw [hL, ← List.map_reverse, ← List.map_reverse, List.map_map]
    rfl
  rw [getVolumeTrends, calculateVolumeTrends, hfold, hgoalR]
  have htrans : ∀ a b c : Int × Nat × Nat, keyLe a b → keyLe b c → keyLe a c := by
    intro a b c hab hbc
    simp only [keyLe, decide_eq_true_eq] at *
    omega
  have htotal : ∀ a b : Int × Nat × Nat, keyLe a b || keyLe b a := by
    intro a b
    by_cases h : a.1 ≤ b.1 <;> simp [keyLe, h] <;> omega
  have hperm : List.Perm (L.mergeSort keyLe) L := List.mergeSort_perm L keyLe
  have hle : (L.mergeSort keyLe).Pairwise (fun a b => keyLe a b = true) :=
    @List.sorted_mergeSort _ keyLe htrans htotal L
  have hLkeys : (L.map (fun p => p.1)).Nodup := by
    rw [hL, List.map_map]
    have hcomp : ((fun p : Int × Nat × Nat => p.1) ∘ f) = id := by
      funext d
      rfl
    rw [hcomp, List.map_id]
    exact keys_desc_nodup nowDay days
  have hkeysnd : ((L.mergeSort keyLe).map (fun p => p.1)).Nodup :=
    ((hperm.map (fun p => p.1)).nodup_iff).2 hLkeys
  have hne : (L.mergeSort keyLe).Pairwise (fun a b => ¬ a.1 = b.1) :=
    List.pairwise_map.1 hkeysnd
  have hsorted : List.Sorted keyLt (L.mergeSort keyLe) := by
    refine (hle.and hne).imp ?_
    intro a b hab
    exact lt_of_le_of_ne (by simpa [keyLe] using hab.1) hab.2
  have hgt : L.Pairwise (fun a b => keyLt b a) := by
    rw [hL, List.pairwise_map, List.pairwise_map]
    refine (List.pairwise_lt_range days).imp ?_
    intro a b hab
    show nowDay - (b : Int) < nowDay - (a : Int)
    omega
  have hsortedRev : List.Sorted keyLt L.reverse := List.pairwise_reverse.2 hgt
  exact List.eq_of_perm_of_sorted (hperm.trans (List.reverse_perm L).symm) hsorted hsortedRev

/-! ## Claim C6 — the contact map rebuilt by `processContacts` -/

/-- A received-interaction of the bare address `a` (the address occurred as a
message's sender). -/
def isRecvOf (a : String) (j : Interaction) : Bool := j.addr == a && j.sent == false

/-- A sent-interaction of the bare address `a` (the address occurred as a
message recipient). -/
def isSentOf (a : String) (j : Interaction) : Bool := j.addr == a && j.sent == true

/-- The dates of all interactions of the bare address `a`, in order. -/
def datesOf (a : String) (l : List Interaction) : List Int :=
  (l.filter (fun j => j.addr == a)).map (fun j => j.date)

theorem applyInteraction_email (c : Contact) (s : Bool) (d : Int) :
    (applyInteraction c s d).email = c.email := by
  cases s <;> simp only [applyInteraction] <;> split_ifs <;> rfl

theorem applyInteraction_recv (c : Contact) (s : Bool) (d : Int) :
    (applyInteraction c s d).emailsReceived
      = c.emailsReceived + (if s then 0 else 1) := by
  cases s <;> simp only [applyInteraction] <;> split_ifs <;> rfl

theorem applyInteraction_sent (c : Contact) (s : Bool) (d : Int) :
    (applyInteraction c s d).emailsSent = c.emailsSent + (if s then 1 else 0) := by
  cases s <;> simp only [applyInteraction] <;> split_ifs <;> rfl

theorem applyInteraction_last (c : Contact) (s : Bool) (d : Int) :
    (applyInteraction c s d).lastInteraction
      = if c.lastInteraction < d then d else c.lastInteraction := by
  cases s <;> simp only [applyInteraction] <;> split_ifs <;> first | rfl | omega

theorem applyInteraction_first (c : Contact) (s : Bool) (d : Int) :
    (applyInteraction c s d).firstInteraction
      = if d < c.firstInteraction then d else c.firstInteraction := by
  cases s <;> simp only [applyInteraction] <;> split_ifs <;> first | rfl | omega

theorem lookupA_eq_none_forall {α : Type} {m : List (String × α)} {a : String}
    (h : lookupA m a = none) : ∀ p ∈ m, p.1 ≠ a := by
  induction m with
  | nil => simp
  | cons p rest ih =>
    by_cases hp : p.1 = a
    · simp [lookupA, hp] at h
    · simp only [lookupA, if_neg hp] at h
      intro q hq
      rcases List.mem_cons.1 hq with rfl | hq'
      · exact hp
      · exact ih h q hq'

theorem lookupA_append_of_none {α : Type} {m : List (String × α)} {a : String}
    (l : List (String × α)) (h : lookupA m a = none) :
    lookupA (m ++ l) a = lookupA l a := by
  induction m with
  | nil => simp
  | cons p rest ih =>
    by_cases hp : p.1 = a
    · simp [lookupA, hp] at h
    · simp only [lookupA, if_neg hp] at h
      simp only [List.cons_append, lookupA, if_neg hp]
      exact ih h

theorem lookupA_append_of_some {α : Type} {m : List (String × α)} {a : String} {c : α}
    (l : List (String × α)) (h : lookupA m a = some c) :
    lookupA (m ++ l) a = some c := by
  induction m with
  | nil => simp [lookupA] at h
  | cons p rest ih =>
    by_cases hp : p.1 = a
    · simp only [lookupA, if_pos hp] at h
      simp only [List.cons_append, lookupA, if_pos hp]
      exact h
    · simp only [lookupA, if_neg hp] at h
      simp only [List.cons_append, lookupA, if_neg hp]
      exact ih h

theorem lookupA_update (m : List (String × Contact)) (k : String) (g : Contact → Contact)
    (a : String) :
    lookupA (m.map (fun p => if p.1 = k then (p.1, g p.2) else p)) a
      = if a = k then (lookupA m a).map g else lookupA m a := by
  induction m with
  | nil => by_cases h : a = k <;> simp [lookupA, h]
  | cons p rest ih =>
    by_cases hpk : p.1 = k
    · by_cases hpa : p.1 = a
      · have hak : a = k := hpa ▸ hpk
        simp [lookupA, hpk, hpa, hak]
      · have hne : ¬ a = k ∨ True := Or.inr trivial
        simp only [List.map_cons, if_pos hpk, lookupA, if_neg hpa]
        simp only [lookupA, if_neg hpa] at ih ⊢
        exact ih
    · by_cases hpa : p.1 = a
      · have hak : ¬ a = k := fun h => hpk (hpa.trans h)
        simp [lookupA, hpk, hpa, hak]
      · simp only [List.map_cons, if_neg hpk, lookupA, if_neg hpa]
        exact ih

theorem updateContact_none {contacts : List (String × Contact)} {i : Interaction}
    (hcur : lookupA contacts i.addr = none) :
    updateContact contacts i
      = contacts ++ [(i.addr, applyInteraction (newContact i.addr i.date) i.sent i.date)] := by
  unfold updateContact
  rw [hcur]

theorem updateContact_some {contacts : List (String × Contact)} {i : Interaction}
    {c : Contact} (hcur : lookupA contacts i.addr = some c) :
    updateContact contacts i
      = contacts.map (fun p =>
          if p.1 = i.addr then (p.1, applyInteraction p.2 i.sent i.date) else p) := by
  unfold updateContact
  rw [hcur]

theorem datesOf_append_self {a : String} {i : Interaction} (done : List Interaction)
    (h : i.addr = a) : datesOf a (done ++ [i]) = datesOf a done ++ [i.date] := by
  simp [datesOf, List.filter_append, h]

theorem datesOf_append_other {a : String} {i : Interaction} (done : List Interaction)
    (h : ¬ i.addr = a) : datesOf a (done ++ [i]) = datesOf a done := by
  simp [datesOf, List.filter_append, h]

theorem countP_single_other {a : String} {i : Interaction} (h : ¬ i.addr = a) :
    List.countP (isRecvOf a) [i] = 0 ∧ List.countP (isSentOf a) [i] = 0 := by
  constructor <;> simp [isRecvOf, isSentOf, h]

theorem datesOf_nil_of_not_mem {a : String} {done : List Interaction}
    (h : a ∉ done.map (fun j => j.addr)) : datesOf a done = [] := by
  have hall : ∀ j ∈ done, ¬ (j.addr == a) = true := by
    intro j hj hba
    exact h (List.mem_map.2 ⟨j, hj, by simpa using hba⟩)
  simp [datesOf, List.filter_eq_nil.2 hall]

theorem countP_zero_of_not_mem {a : String} {done : List Interaction}
    (h : a ∉ done.map (fun j => j.addr)) :
    List.countP (isRecvOf a) done = 0 ∧ List.countP (isSentOf a) done = 0 := by
  constructor <;>
  · refine List.countP_eq_zero.2 ?_
    intro j hj hpj
    refine h (List.mem_map.2 ⟨j, hj, ?_⟩)
    simp [isRecvOf, isSentOf] at hpj
    exact hpj.1

/-- Invariant relating the contact map built so far to the already-processed
prefix of the interaction list: keys are pairwise distinct; an address is
absent exactly when it has not occurred; and a present record carries the
exact received/sent counts and its interaction-timestamp window equals the
minimum/maximum of that address's interaction dates. -/
def ContactMapOk (acc : List (String × Contact)) (done : List Interaction) : Prop :=
  acc.Pairwise (fun p q => p.1 ≠ q.1) ∧
  (∀ a : String, lookupA acc a = none → a ∉ done.map (fun j => j.addr)) ∧
  (∀ (a : String) (c : Contact), lookupA acc a = some c →
     a ∈ done.map (fun j => j.addr) ∧
     c.email = a ∧
     c.emailsReceived = done.countP (isRecvOf a) ∧
     c.emailsSent = done.countP (isSentOf a) ∧
     c.firstInteraction ∈ datesOf a done ∧
     (∀ d ∈ datesOf a done, c.firstInteraction ≤ d) ∧
     c.lastInteraction ∈ datesOf a done ∧
     (∀ d ∈ datesOf a done, d ≤ c.lastInteraction))

theorem lookupA_updateContact (m : List (String × Contact)) (k : String) (s : Bool)
    (dt : Int) (a : String) :
    lookupA (m.map (fun p => if p.1 = k then (p.1, applyInteraction p.2 s dt) else p)) a
      = if a = k then (lookupA m a).map (fun x => applyInteraction x s dt)
        else lookupA m a := by
  simpa using lookupA_update m k (fun x => applyInteraction x s dt) a

theorem applyInteraction_new_first (a : String) (s : Bool) (d : Int) :
    (applyInteraction (newContact a d) s d).firstInteraction = d := by
  rw [applyInteraction_first]
  simp [newContact]

theorem applyInteraction_new_last (a : String) (s : Bool) (d : Int) :
    (applyInteraction (newContact a d) s d).lastInteraction = d := by
  rw [applyInteraction_last]
  simp [newContact]

theorem contactStep {acc : List (String × Contact)} {done : List Interaction}
    (h : ContactMapOk acc done) (i : Interaction) :
    ContactMapOk (updateContact acc i) (done ++ [i]) := by
  obtain ⟨hpw, hnone, hsome⟩ := h
  cases hcur : lookupA acc i.addr with
  | none =>
    rw [updateContact_none hcur]
    refine ⟨?_, ?_, ?_⟩
    · rw [List.pairwise_append]
      refine ⟨hpw, List.pairwise_singleton _ _, ?_⟩
      intro p hp q hq
      rw [List.mem_singleton] at hq
      subst hq
      exact lookupA_eq_none_forall hcur p hp
    · intro a ha
      by_cases hai : a = i.addr
      · subst hai
        rw [lookupA_append_of_none _ hcur] at ha
        simp [lookupA] at ha
      · cases hacc : lookupA acc a with
        | some c =>
          rw [lookupA_append_of_some _ hacc] at ha
          exact absurd ha (by simp)
        | none =>
          have h1 := hnone a hacc
          simp only [List.map_append, List.mem_append]
          rintro (h2 | h2)
          · exact h1 h2
          · simp only [List.map_cons, List.map_nil, List.mem_singleton] at h2
            exact hai h2
    · intro a c hac
      by_cases hai : a = i.addr
      · subst hai
        rw [lookupA_append_of_none _ hcur] at hac
        simp only [lookupA, if_pos rfl] at hac
        obtain rfl :
            applyInteraction (newContact i.addr i.date) i.sent i.date = c := by
          simpa using hac
        have hnotm := hnone i.addr hcur
        have hdz := datesOf_nil_of_not_mem hnotm
        have hcz := countP_zero_of_not_mem hnotm
        have hdates : datesOf i.addr (done ++ [i]) = [i.date] := by
          rw [datesOf_append_self done rfl, hdz]
          rfl
        refine ⟨?_, ?_, ?_, ?_, ?_, ?_, ?_, ?_⟩
        · simp
        · rw [applyInteraction_email]
          rfl
        · rw [applyInteraction_recv, List.countP_append, hcz.1]
          cases hs : i.sent <;> simp [newContact, isRecvOf, hs]
        · rw [applyInteraction_sent, List.countP_append, hcz.2]
          cases hs : i.sent <;> simp [newContact, isSentOf, hs]
        · rw [applyInteraction_new_first, hdates]
          simp
        · rw [applyInteraction_new_first, hdates]
          simp
        · rw [applyInteraction_new_last, hdates]
          simp
        · rw [applyInteraction_new_last, hdates]
          simp
      · cases hacc : lookupA acc a with
        | none =>
          rw [lookupA_append_of_none _ hacc] at hac
          have : ¬ i.addr = a := fun hx => hai hx.symm
          simp [lookupA, this] at hac
        | some c' =>
          rw [lookupA_append_of_some _ hacc] at hac
          obtain rfl : c' = c := by simpa using hac
          obtain ⟨hmem, hemail, hrecv, hsent, hfmem, hfbd, hlmem, hlbd⟩ :=
            hsome a c' hacc
          have hia : ¬ i.addr = a := fun hx => hai hx.symm
          have hdates := datesOf_append_other done hia
          have hcz := countP_single_other hia
          refine ⟨?_, hemail, ?_, ?_, ?_, ?_, ?_, ?_⟩
          · simp only [List.map_append, List.mem_append]
            exact Or.inl hmem
          · rw [List.countP_append, hcz.1, hrecv]
            omega
          · rw [List.countP_append, hcz.2, hsent]
            omega
          · rw [hdates]
            exact hfmem
          · rw [hdates]
            exact hfbd
          · rw [hdates]
            exact hlmem
          · rw [hdates]
            exact hlbd
  | some c =>
    rw [updateContact_some hcur]
    have hkey : ∀ p : String × Contact,
        ((if p.1 = i.addr then (p.1, applyInteraction p.2 i.sent i.date) else p) :
          String × Contact).1 = p.1 := by
      intro p
      by_cases hp : p.1 = i.addr <;> simp [hp]
    refine ⟨?_, ?_, ?_⟩
    · refine List.Pairwise.map _ ?_ hpw
      intro p q hpq
      rw [hkey p, hkey q]
      exact hpq
    · intro a ha
      rw [lookupA_updateContact] at ha
      by_cases hai : a = i.addr
      · rw [if_pos hai, hai, hcur] at ha
        simp at ha
      · rw [if_neg hai] at ha
        have h1 := hnone a ha
        simp only [List.map_append, List.mem_append]
        rintro (h2 | h2)
        · exact h1 h2
        · simp only [List.map_cons, List.map_nil, List.mem_singleton] at h2
          exact hai h2
    · intro a c' hac
      rw [lookupA_updateContact] at hac
      by_cases hai : a = i.addr
      · subst hai
        rw [if_pos rfl, hcur] at hac
        obtain rfl : applyInteraction c i.sent i.date = c' := by simpa using hac
        obtain ⟨hmem, hemail, hrecv, hsent, hfmem, hfbd, hlmem, hlbd⟩ :=
          hsome i.addr c hcur
        have hdates : datesOf i.addr (done ++ [i]) = datesOf i.addr done ++ [i.date] :=
          datesOf_append_self done rfl
        refine ⟨?_, ?_, ?_, ?_, ?_, ?_, ?_, ?_⟩
        · simp only [List.map_append, List.mem_append]
          exact Or.inl hmem
        · rw [applyInteraction_email]
          exact hemail
        · rw [applyInteraction_recv, List.countP_append, hrecv]
          cases hs : i.sent <;> simp [isRecvOf, hs]
        · rw [applyInteraction_sent, List.countP_append, hsent]
          cases hs : i.sent <;> simp [isSentOf, hs]
        · rw [applyInteraction_first, hdates]
          by_cases hd : i.date < c.firstInteraction
          · rw [if_pos hd]
            simp
          · rw [if_neg hd]
            simp only [List.mem_append]
            exact Or.inl hfmem
        · rw [applyInteraction_first, hdates]
          intro d hd
          rcases List.mem_append.1 hd with hd' | hd'
          · by_cases hlt : i.date < c.firstInteraction
            · rw [if_pos hlt]
              exact le_trans (le_of_lt hlt) (hfbd d hd')
            · rw [if_neg hlt]
              exact hfbd d hd'
          · rw [List.mem_singleton] at hd'
            subst hd'
            by_cases hlt : i.date < c.firstInteraction
            · rw [if_pos hlt]
            · rw [if_neg hlt]
              omega
        · rw [applyInteraction_last, hdates]
          by_cases hd : c.lastInteraction < i.date
          · rw [if_pos hd]
            simp
          · rw [if_neg hd]
            simp only [List.mem_append]
            exact Or.inl hlmem
        · rw [applyInteraction_last, hdates]
          intro d hd
          rcases List.mem_append.1 hd with hd' | hd'
          · by_cases hlt : c.lastInteraction < i.date
            · rw [if_pos hlt]
              exact le_trans (hlbd d hd') (le_of_lt hlt)
            · rw [if_neg hlt]
              exact hlbd d hd'
          · rw [List.mem_singleton] at hd'
            subst hd'
            by_cases hlt : c.lastInteraction < i.date
            · rw [if_pos hlt]
            · rw [if_neg hlt]
              omega
      · rw [if_neg hai] at hac
        obtain ⟨hmem, hemail, hrecv, hsent, hfmem, hfbd, hlmem, hlbd⟩ :=
          hsome a c' hac
        have hia : ¬ i.addr = a := fun hx => hai hx.symm
        have hdates := datesOf_append_other done hia
        have hcz := countP_single_other hia
        refine ⟨?_, hemail, ?_, ?_, ?_, ?_, ?_, ?_⟩
        · simp only [List.map_append, List.mem_append]
          exact Or.inl hmem
        · rw [List.countP_append, hcz.1, hrecv]
          omega
        · rw [List.countP_append, hcz.2, hsent]
          omega
        · rw [hdates]
          exact hfmem
        · rw [hdates]
          exact hfbd
        · rw [hdates]
          exact hlmem
        · rw [hdates]
          exact hlbd

theorem contactFold_ok (l : List Interaction) {acc : List (String × Contact)}
    {done : List Interaction} (h : ContactMapOk acc done) :
    ContactMapOk (l.foldl updateContact acc) (done ++ l) := by
  induction l generalizing acc done with
  | nil => simpa using h
  | cons i rest ih =>
    have h2 := ih (contactStep h i)
    rw [List.append_assoc] at h2
    simpa using h2

theorem contactMapOk_nil : ContactMapOk [] [] := by
  refine ⟨List.Pairwise.nil, ?_, ?_⟩
  · intro a ha
    simp
  · intro a c hac
    simp [lookupA] at hac

/-- C6: after `updateEmails` ingests a snapshot `S`, the rebuilt contact map
has pairwise-distinct keys with an entry exactly for each bare address (with
the display name stripped by `extractEmailAddress`, and nonempty — the JS
truthiness guard) occurring as a sender or recipient; a present entry's
`emailsReceived` is the number of sender occurrences of that address,
`emailsSent` the number of recipient occurrences, and
`firstInteraction` / `lastInteraction` are the minimum / maximum of that
address's interaction dates (each attained by some interaction). -/
theorem processContacts_contact_map (st : AnalyticsState) (S : List EmailMessage)
    (a : String) :
    ((updateEmails st S).contacts).Pairwise (fun p q => p.1 ≠ q.1) ∧
    (lookupA (updateEmails st S).contacts a = none ↔
       a ∉ (interactionsOf S).map (fun j => j.addr)) ∧
    (∀ c : Contact, lookupA (updateEmails st S).contacts a = some c →
       c.email = a ∧
       c.emailsReceived = (interactionsOf S).countP (isRecvOf a) ∧
       c.emailsSent = (interactionsOf S).countP (isSentOf a) ∧
       c.firstInteraction ∈ datesOf a (interactionsOf S) ∧
       (∀ d ∈ datesOf a (interactionsOf S), c.firstInteraction ≤ d) ∧
       c.lastInteraction ∈ datesOf a (interactionsOf S) ∧
       (∀ d ∈ datesOf a (interactionsOf S), d ≤ c.lastInteraction)) := by
  have hok : ContactMapOk (processContacts S) (interactionsOf S) := by
    have h := contactFold_ok (interactionsOf S) contactMapOk_nil
    simpa [processContacts] using h
  obtain ⟨hpw, hnone, hsome⟩ := hok
  refine ⟨hpw, ⟨fun h => hnone a h, fun h => ?_⟩, fun c hc' => ?_⟩
  · cases hl : lookupA (processContacts S) a with
    | none => exact hl
    | some c => exact absurd (hsome a c hl).1 h
  · obtain ⟨hmem, hemail, hrecv, hsent, hfmem, hfbd, hlmem, hlbd⟩ := hsome a c hc'
    exact ⟨hemail, hrecv, hsent, hfmem, hfbd, hlmem, hlbd⟩

/-- A fresh analytics service state (all class fields at their initial
values). -/
def initialAnalyticsState : AnalyticsState := ⟨[], [], none, none⟩

/-- A concrete two-message snapshot: both messages sent by
`ann@example.com` (once with a display name) to `bob@example.com`. -/
def sampleContactSnapshot : List EmailMessage :=
  [{ id := "1", fromAddr := "Ann <ann@example.com>", toAddrs := ["bob@example.com"],
     cc := [], subject := "hi", body := "x", isHtml := false, date := 1000,
     folder := "INBOX", isRead := false, isStarred := false, hasAttachment := false,
     attachments := none },
   { id := "2", fromAddr := "ann@example.com", toAddrs := ["bob@example.com"],
     cc := [], subject := "re", body := "y", isHtml := false, date := 5000,
     folder := "INBOX", isRead := true, isStarred := false, hasAttachment := false,
     attachments := none }]

theorem processContacts_contact_map_witness :
    lookupA (updateEmails initialAnalyticsState sampleContactSnapshot).contacts
        "ann@example.com" = some ⟨"ann@example.com", 0, 2, 5000, 1000⟩ ∧
    ((⟨"ann@example.com", 0, 2, 5000, 1000⟩ : Contact).email = "ann@example.com" ∧
     (⟨"ann@example.com", 0, 2, 5000, 1000⟩ : Contact).emailsReceived
       = (interactionsOf sampleContactSnapshot).countP (isRecvOf "ann@example.com") ∧
     (⟨"ann@example.com", 0, 2, 5000, 1000⟩ : Contact).emailsSent
       = (interactionsOf sampleContactSnapshot).countP (isSentOf "ann@example.com") ∧
     (⟨"ann@example.com", 0, 2, 5000, 1000⟩ : Contact).firstInteraction
       ∈ datesOf "ann@example.com" (interactionsOf sampleContactSnapshot) ∧
     (∀ d ∈ datesOf "ann@example.com" (interactionsOf sampleContactSnapshot),
        (⟨"ann@example.com", 0, 2, 5000, 1000⟩ : Contact).firstInteraction ≤ d) ∧
     (⟨"ann@example.com", 0, 2, 5000, 1000⟩ : Contact).lastInteraction
       ∈ datesOf "ann@example.com" (interactionsOf sampleContactSnapshot) ∧
     (∀ d ∈ datesOf "ann@example.com" (interactionsOf sampleContactSnapshot),
        d ≤ (⟨"ann@example.com", 0, 2, 5000, 1000⟩ : Contact).lastInteraction)) :=
  ⟨by decide,
   (processContacts_contact_map initialAnalyticsState sampleContactSnapshot
      "ann@example.com").2.2 ⟨"ann@example.com", 0, 2, 5000, 1000⟩ (by decide)⟩

/-! ## Claim C7 — `truncateBody` (`src/services/simple-imap-service.ts`)

`body.replace(/\s+/g, ' ').trim()` is embedded as `collapseWS` (each maximal
whitespace run becomes one space) followed by `trimChars`.  JS
`lastIndexOf(' ')` returning `-1` is modelled as `Option Nat`; the float
comparison `lastSpace > maxLength * 0.8` is the exact rational comparison
`5 * lastSpace > 4 * maxLength`, which agrees with the JS double comparison
at the only call-site value `maxLength = 300` (where `300 * 0.8` evaluates
to a double infinitesimally above `240`, so both mean `lastSpace ≥ 241`). -/

/-- Collapse every maximal whitespace run into a single `' '`
(the regex replace `/\s+/g → ' '`); the `Bool` records whether the previous
character belonged to a whitespace run. -/
def collapseAux : Bool → List Char → List Char
  | _, [] => []
  | prevWS, c :: rest =>
    if c.isWhitespace then
      if prevWS then collapseAux true rest
      else ' ' :: collapseAux true rest
    else c :: collapseAux false rest

/-- The `cleaned` value inside `truncateBody`:
`body.replace(/\s+/g, ' ').trim()`. -/
def cleanBody (body : String) : String :=
  String.mk (trimChars (collapseAux false body.data))

/-- JS `truncated.lastIndexOf(' ')`: the largest index holding `' '`,
`none` standing for `-1`. -/
def lastSpaceIdx : List Char → Option Nat
  | [] => none
  | c :: rest =>
    match lastSpaceIdx rest with
    | some i => some (i + 1)
    | none => if c = ' ' then some 0 else none

/-- `truncateBody` from `src/services/simple-imap-service.ts`. -/
def truncateBody (body : String) (maxLength : Nat) : String :=
  if body = "" then ""
  else
    let cleaned := cleanBody body
    if cleaned.length ≤ maxLength then cleaned
    else
      let truncated := cleaned.data.take maxLength
      match lastSpaceIdx truncated with
      | some i =>
        if 5 * i > 4 * maxLength then String.mk (truncated.take i) ++ "..."
        else String.mk truncated ++ "..."
      | none => String.mk truncated ++ "..."

theorem lastSpaceIdx_spec {l : List Char} {i : Nat} (h : lastSpaceIdx l = some i) :
    i < l.length ∧ l.get? i = some ' ' := by
  induction l generalizing i with
  | nil => simp [lastSpaceIdx] at h
  | cons c rest ih =>
    simp only [lastSpaceIdx] at h
    cases hr : lastSpaceIdx rest with
    | some k =>
      rw [hr] at h
      obtain rfl : k + 1 = i := by simpa using h
      obtain ⟨h1, h2⟩ := ih hr
      constructor
      · simpa using Nat.succ_lt_succ h1
      · simpa using h2
    | none =>
      rw [hr] at h
      by_cases hc : c = ' '
      · rw [if_pos hc] at h
        obtain rfl : (0 : Nat) = i := by simpa using h
        exact ⟨by simp, by simp [hc]⟩
      · rw [if_neg hc] at h
        simp at h

theorem lastSpaceIdx_ge {l : List Char} {j : Nat} (h : l.get? j = some ' ') :
    ∃ i, lastSpaceIdx l = some i ∧ j ≤ i := by
  induction l generalizing j with
  | nil => simp at h
  | cons c rest ih =>
    cases j with
    | zero =>
      have hc : c = ' ' := by simpa using h
      cases hr : lastSpaceIdx rest with
      | some k => exact ⟨k + 1, by simp [lastSpaceIdx, hr], Nat.zero_le _⟩
      | none => exact ⟨0, by simp [lastSpaceIdx, hr, hc], Nat.le_refl 0⟩
    | succ j' =>
      have h' : rest.get? j' = some ' ' := by simpa using h
      obtain ⟨i, hi, hji⟩ := ih h'
      exact ⟨i + 1, by simp [lastSpaceIdx, hi], Nat.succ_le_succ hji⟩

/-- C7: writing `cleaned` for the whitespace-normalised form of the body,
(1) when `cleaned` fits in 300 characters the preview is `cleaned` itself,
with no ellipsis appended; (2) when `cleaned` exceeds 300 characters the
preview ends with the ellipsis marker; and (3) when additionally some space
occurs in the truncation window at a position strictly beyond 80% of it
(index `> 240` and `< 300`), the preview's content is the prefix of
`cleaned` up to such a space — a word boundary — never a mid-word cut. -/
theorem truncateBody_preview (body : String) :
    ((cleanBody body).length ≤ 300 → truncateBody body 300 = cleanBody body) ∧
    ((cleanBody body).length > 300 →
      ∃ w, truncateBody body 300 = w ++ "...") ∧
    ((cleanBody body).length > 300 →
      ∀ j, 240 < j → j < 300 → (cleanBody body).data.get? j = some ' ' →
      ∃ i, 240 < i ∧ i < 300 ∧ (cleanBody body).data.get? i = some ' ' ∧
        truncateBody body 300 = String.mk ((cleanBody body).data.take i) ++ "...") := by
  refine ⟨?_, ?_, ?_⟩
  · intro hlen
    by_cases hb : body = ""
    · subst hb
      decide
    · simp only [truncateBody, if_neg hb, if_pos hlen]
  · intro hlen
    have hb : body ≠ "" := by
      intro hb
      subst hb
      rw [show cleanBody "" = "" from by decide] at hlen
      simp at hlen
    have hnle : ¬ (cleanBody body).length ≤ 300 := by omega
    simp only [truncateBody, if_neg hb, if_neg hnle]
    cases hls : lastSpaceIdx ((cleanBody body).data.take 300) with
    | none => exact ⟨String.mk ((cleanBody body).data.take 300), rfl⟩
    | some i =>
      dsimp only
      by_cases hcond : 5 * i > 4 * 300
      · rw [if_pos hcond]
        exact ⟨String.mk (((cleanBody body).data.take 300).take i), rfl⟩
      · rw [if_neg hcond]
        exact ⟨String.mk ((cleanBody body).data.take 300), rfl⟩
  · intro hlen j hj1 hj2 hsp
    have hb : body ≠ "" := by
      intro hb
      subst hb
      rw [show cleanBody "" = "" from by decide] at hlen
      simp at hlen
    have hnle : ¬ (cleanBody body).length ≤ 300 := by omega
    have hdlen : (cleanBody body).data.length = (cleanBody body).length := rfl
    have hspr : ((cleanBody body).data.take 300).get? j = some ' ' := by
      rw [List.get?_take hj2]
      exact hsp
    obtain ⟨i, hi, hji⟩ := lastSpaceIdx_ge hspr
    obtain ⟨hilt, hisp⟩ := lastSpaceIdx_spec hi
    have hi300 : i < 300 := by
      rw [List.length_take] at hilt
      omega
    have hi240 : 240 < i := lt_of_lt_of_le hj1 hji
    refine ⟨i, hi240, hi300, ?_, ?_⟩
    · rw [List.get?_take hi300] at hisp
      exact hisp
    · simp only [truncateBody, if_neg hb, if_neg hnle]
      rw [hi]
      dsimp only
      have hcond : 5 * i > 4 * 300 := by omega
      rw [if_pos hcond, List.take_take, Nat.min_eq_left (Nat.le_of_lt hi300)]

/-- A 60-character block: 59 letters followed by one space. -/
def sampleWordBlock : List Char := List.replicate 59 'a' ++ [' ']

/-- A concrete 360-character body of six 60-character blocks; its
whitespace-normalised form is 359 characters long and has spaces exactly at
indices 59, 119, 179, 239 and 299. -/
def sampleLongBody : String :=
  String.mk (sampleWordBlock ++ sampleWordBlock ++ sampleWordBlock ++ sampleWordBlock
    ++ sampleWordBlock ++ sampleWordBlock)

set_option maxRecDepth 8192 in
theorem truncateBody_preview_witness :
    (cleanBody sampleLongBody).length > 300 ∧
    (cleanBody sampleLongBody).data.get? 299 = some ' ' ∧
    (∃ i, 240 < i ∧ i < 300 ∧ (cleanBody sampleLongBody).data.get? i = some ' ' ∧
      truncateBody sampleLongBody 300
        = String.mk ((cleanBody sampleLongBody).data.take i) ++ "...") :=
  ⟨by decide, by decide,
   (truncateBody_preview sampleLongBody).2.2 (by decide) 299 (by decide) (by decide)
     (by decide)⟩

/-! ## SimpleIMAPService (`src/services/simple-imap-service.ts`)

The class fields `isConnected`, `emailCache` and `folderCache` become an
explicit `ImapState`.  The `ImapFlow` client is modelled by two oracles fixed
in the state: `serverFetch` summarises the outcome of the identifier lookup
that `getEmailById` performs against the server on a cache miss (found /
not found / a thrown provider error), and `provRes` gives each provider
call's outcome (`none` = resolves, `some e` = rejects with `e`).  Every
provider call that the service issues is appended to the `calls` trace, so
"no provider call was made" is expressed as an unchanged trace.  Mailbox
locks are modelled as always acquirable (a lock failure surfaces exactly
like any other thrown provider error). -/

/-- The provider (`ImapFlow`) methods invoked by the mutating operations and
the folder CRUD operations. -/
inductive ProviderCall
  | messageFlagsAdd (id flag : String)
  | messageFlagsRemove (id flag : String)
  | messageMove (id target : String)
  | messageDelete (id : String)
  | mailboxCreate (name : String)
  | mailboxDelete (name : String)
  | mailboxRename (oldName newName : String)
deriving DecidableEq, Repr

/-- A provider-raised error: optional IMAP `responseText` (matched against
markers such as `ALREADYEXISTS`) and the JS `error.message`. -/
structure ProvErr where
  responseText : Option String
  message : String
deriving DecidableEq, Repr

/-- An error escaping a service method: either `throw new Error(s)` raised by
the service itself, or a provider error propagated unmodified. -/
inductive MailErr
  | thrown (s : String)
  | provider (e : ProvErr)
deriving DecidableEq, Repr

/-- JS `error.message` of a propagated error. -/
def MailErr.text : MailErr → String
  | .thrown s => s
  | .provider e => e.message

/-- Outcome of the server-side identifier lookup performed by
`getEmailById` on a cache miss. -/
inductive FetchOutcome
  | found (e : EmailMessage)
  | missing
  | failed (e : ProvErr)
deriving DecidableEq

/-- The `SimpleIMAPService` state: connection flag, the two caches, the
provider oracles, and the trace of issued provider calls. -/
structure ImapState where
  connected : Bool
  emailCache : List (String × EmailMessage)
  folderCache : List (String × EmailFolder)
  serverFetch : String → FetchOutcome
  provRes : ProviderCall → Option ProvErr
  calls : List ProviderCall

/-- JS `Map.set`: replace the value in place when the key exists, otherwise
append. -/
def setCacheEntry (cache : List (String × EmailMessage)) (k : String) (e : EmailMessage) :
    List (String × EmailMessage) :=
  match lookupA cache k with
  | some _ => cache.map (fun p => if p.1 = k then (p.1, e) else p)
  | none => cache ++ [(k, e)]

/-- `getEmailById`: serve from the cache when present; when disconnected,
return `null`; otherwise look the identifier up on the server, caching a
found message under its own `id` (the fetch is by uid, so a found message's
`id` is the queried identifier); a thrown provider error propagates. -/
def getEmailById (st : ImapState) (emailId : String) :
    Except MailErr (Option EmailMessage) × ImapState :=
  match lookupA st.emailCache emailId with
  | some e => (.ok (some e), st)
  | none =>
    if st.connected = false then (.ok none, st)
    else
      match st.serverFetch emailId with
      | .found e => (.ok (some e), { st with emailCache := setCacheEntry st.emailCache e.id e })
      | .missing => (.ok none, st)
      | .failed pe => (.error (.provider pe), st)

/-- The in-place cache mutation `cachedEmail.isRead = isRead`. -/
def setReadFlag (cache : List (String × EmailMessage)) (emailId : String) (v : Bool) :
    List (String × EmailMessage) :=
  cache.map (fun p => if p.1 = emailId then (p.1, { p.2 with isRead := v }) else p)

/-- The in-place cache mutation `cachedEmail.isStarred = isStarred`. -/
def setStarFlag (cache : List (String × EmailMessage)) (emailId : String) (v : Bool) :
    List (String × EmailMessage) :=
  cache.map (fun p => if p.1 = emailId then (p.1, { p.2 with isStarred := v }) else p)

/-- The in-place cache mutation `cachedEmail.folder = targetFolder`. -/
def setFolderField (cache : List (String × EmailMessage)) (emailId target : String) :
    List (String × EmailMessage) :=
  cache.map (fun p => if p.1 = emailId then (p.1, { p.2 with folder := target }) else p)

/-- `markEmailRead`: return `false` when disconnected; resolve the message
(throwing a not-found error when it cannot be resolved); issue the
`\Seen` flag add/remove; on success update the cache and return `true`; a
provider rejection propagates. -/
def markEmailRead (st : ImapState) (emailId : String) (isRead : Bool) :
    Except MailErr Bool × ImapState :=
  if st.connected = false then (.ok false, st)
  else
    match getEmailById st emailId with
    | (.error e, st1) => (.error e, st1)
    | (.ok none, st1) => (.error (.thrown ("Email " ++ emailId ++ " not found")), st1)
    | (.ok (some _), st1) =>
      let call := if isRead then ProviderCall.messageFlagsAdd emailId "\\Seen"
                  else ProviderCall.messageFlagsRemove emailId "\\Seen"
      let st2 := { st1 with calls := st1.calls ++ [call] }
      match st2.provRes call with
      | some pe => (.error (.provider pe), st2)
      | none => (.ok true, { st2 with emailCache := setReadFlag st2.emailCache emailId isRead })

/-- `starEmail`: as `markEmailRead` but for the `\Flagged` flag. -/
def starEmail (st : ImapState) (emailId : String) (isStarred : Bool) :
    Except MailErr Bool × ImapState :=
  if st.connected = false then (.ok false, st)
  else
    match getEmailById st emailId with
    | (.error e, st1) => (.error e, st1)
    | (.ok none, st1) => (.error (.thrown ("Email " ++ emailId ++ " not found")), st1)
    | (.ok (some _), st1) =>
      let call := if isStarred then ProviderCall.messageFlagsAdd emailId "\\Flagged"
                  else ProviderCall.messageFlagsRemove emailId "\\Flagged"
      let st2 := { st1 with calls := st1.calls ++ [call] }
      match st2.provRes call with
      | some pe => (.error (.provider pe), st2)
      | none => (.ok true, { st2 with emailCache := setStarFlag st2.emailCache emailId isStarred })

/-- `moveEmail`: return `false` when disconnected; resolve; issue
`messageMove`; on success update the cached message's `folder` and return
`true`. -/
def moveEmail (st : ImapState) (emailId targetFolder : String) :
    Except MailErr Bool × ImapState :=
  if st.connected = false then (.ok false, st)
  else
    match getEmailById st emailId with
    | (.error e, st1) => (.error e, st1)
    | (.ok none, st1) => (.error (.thrown ("Email " ++ emailId ++ " not found")), st1)
    | (.ok (some _), st1) =>
      let call := ProviderCall.messageMove emailId targetFolder
      let st2 := { st1 with calls := st1.calls ++ [call] }
      match st2.provRes call with
      | some pe => (.error (.provider pe), st2)
      | none =>
        (.ok true, { st2 with emailCache := setFolderField st2.emailCache emailId targetFolder })

/-- `deleteEmail`: return `false` when disconnected; resolve; issue
`messageDelete`; on success remove the message from the cache and return
`true`. -/
def deleteEmail (st : ImapState) (emailId : String) :
    Except MailErr Bool × ImapState :=
  if st.connected = false then (.ok false, st)
  else
    match getEmailById st emailId with
    | (.error e, st1) => (.error e, st1)
    | (.ok none, st1) => (.error (.thrown ("Email " ++ emailId ++ " not found")), st1)
    | (.ok (some _), st1) =>
      let call := ProviderCall.messageDelete emailId
      let st2 := { st1 with calls := st1.calls ++ [call] }
      match st2.provRes call with
      | some pe => (.error (.provider pe), st2)
      | none => (.ok true, { st2 with emailCache := st2.emailCache.filter (fun p => !(p.1 == emailId)) })

/-- Contiguous-subsequence test: does `p` occur as a contiguous run inside
the second list? -/
def containsSeq (p : List Char) : List Char → Bool
  | [] => p.isEmpty
  | c :: rest => List.isPrefixOf p (c :: rest) || containsSeq p rest

/-- JS `t.includes(marker)` on the optional provider `responseText`
(`error.responseText?.includes(marker)`). -/
def respIncludes (pe : ProvErr) (marker : String) : Bool :=
  match pe.responseText with
  | some t => containsSeq marker.data t.data
  | none => false

/-- The fixed protected system-folder set of `deleteFolder` /
`renameFolder`. -/
def protectedFolders : List String :=
  ["INBOX", "Sent", "Drafts", "Trash", "Spam", "Archive", "All Mail"]

/-- JS `s.toLowerCase()` over the character-list view (ASCII case fold). -/
def jsToLower (s : String) : String := String.mk (s.data.map Char.toLower)

/-- The protected-folder test:
`protectedFolders.some(f => name.toLowerCase() === f.toLowerCase())`. -/
def isProtectedFolder (folderName : String) : Bool :=
  protectedFolders.any (fun f => jsToLower folderName == jsToLower f)

/-- `createFolder`: throw when disconnected; issue `mailboxCreate` (no
protected-name check); on success clear the folder cache and return `true`;
translate an `ALREADYEXISTS` rejection, propagate anything else. -/
def createFolder (st : ImapState) (folderName : String) :
    Except MailErr Bool × ImapState :=
  if st.connected = false then (.error (.thrown "IMAP client not connected"), st)
  else
    let call := ProviderCall.mailboxCreate folderName
    let st1 := { st with calls := st.calls ++ [call] }
    match st.provRes call with
    | none => (.ok true, { st1 with folderCache := [] })
    | some pe =>
      if respIncludes pe "ALREADYEXISTS" then
        (.error (.thrown ("Folder '" ++ folderName ++ "' already exists")), st1)
      else (.error (.provider pe), st1)

/-- `deleteFolder`: throw when disconnected; reject a protected system
folder before any provider call; issue `mailboxDelete`; on success clear the
folder cache and return `true`; translate `NONEXISTENT` and
`HASCHILDREN` / `not empty` rejections, propagate anything else. -/
def deleteFolder (st : ImapState) (folderName : String) :
    Except MailErr Bool × ImapState :=
  if st.connected = false then (.error (.thrown "IMAP client not connected"), st)
  else if isProtectedFolder folderName then
    (.error (.thrown ("Cannot delete protected folder: " ++ folderName)), st)
  else
    let call := ProviderCall.mailboxDelete folderName
    let st1 := { st with calls := st.calls ++ [call] }
    match st.provRes call with
    | none => (.ok true, { st1 with folderCache := [] })
    | some pe =>
      if respIncludes pe "NONEXISTENT" then
        (.error (.thrown ("Folder '" ++ folderName ++ "' does not exist")), st1)
      else if respIncludes pe "HASCHILDREN" || respIncludes pe "not empty" then
        (.error (.thrown ("Folder '" ++ folderName
          ++ "' is not empty. Move or delete emails first.")), st1)
      else (.error (.provider pe), st1)

/-- `renameFolder`: throw when disconnected; reject a protected system
folder as the old name before any provider call; issue `mailboxRename`; on
success clear the folder cache and return `true`; translate `NONEXISTENT`
and `ALREADYEXISTS` rejections, propagate anything else. -/
def renameFolder (st : ImapState) (oldName newName : String) :
    Except MailErr Bool × ImapState :=
  if st.connected = false then (.error (.thrown "IMAP client not connected"), st)
  else if isProtectedFolder oldName then
    (.error (.thrown ("Cannot rename protected folder: " ++ oldName)), st)
  else
    let call := ProviderCall.mailboxRename oldName newName
    let st1 := { st with calls := st.calls ++ [call] }
    match st.provRes call with
    | none => (.ok true, { st1 with folderCache := [] })
    | some pe =>
      if respIncludes pe "NONEXISTENT" then
        (.error (.thrown ("Folder '" ++ oldName ++ "' does not exist")), st1)
      else if respIncludes pe "ALREADYEXISTS" then
        (.error (.thrown ("Folder '" ++ newName ++ "' already exists")), st1)
      else (.error (.provider pe), st1)

/-! ## Claim C5 — protected system folders -/

/-- C5: on a connected service, for every folder name matching the protected
set case-insensitively, `deleteFolder` and `renameFolder` (with that name as
the old name) throw the protected-folder error with the state unchanged — in
particular the provider-call trace is unchanged, so no
`mailboxDelete` / `mailboxRename` call is issued — while `createFolder`
applies no protected-name check: it issues its `mailboxCreate` call for the
very same name. -/
theorem protected_folder_policy (st : ImapState) (name newName : String)
    (hc : st.connected = true) (hp : isProtectedFolder name = true) :
    deleteFolder st name
      = (.error (.thrown ("Cannot delete protected folder: " ++ name)), st) ∧
    renameFolder st name newName
      = (.error (.thrown ("Cannot rename protected folder: " ++ name)), st) ∧
    (createFolder st name).2.calls = st.calls ++ [ProviderCall.mailboxCreate name] := by
  have hne : ¬ st.connected = false := by simp [hc]
  refine ⟨?_, ?_, ?_⟩
  · unfold deleteFolder
    rw [if_neg hne, if_pos hp]
  · unfold renameFolder
    rw [if_neg hne, if_pos hp]
  · unfold createFolder
    rw [if_neg hne]
    cases hpr : st.provRes (ProviderCall.mailboxCreate name) with
    | none =>
      dsimp only
      rw [hpr]
    | some pe =>
      dsimp only
      rw [hpr]
      dsimp only
      split <;> rfl

/-- A concrete message living on the sample server under uid `"7"`. -/
def sampleServerMsg : EmailMessage :=
  { id := "7", fromAddr := "ann@example.com", toAddrs := ["bob@example.com"],
    cc := [], subject := "s", body := "b", isHtml := false, date := 0,
    folder := "INBOX", isRead := false, isStarred := false, hasAttachment := false,
    attachments := none }

/-- A connected sample service: empty caches, uid `"7"` resolvable, every
provider call succeeding. -/
def sampleConnected : ImapState :=
  { connected := true, emailCache := [], folderCache := [],
    serverFetch := fun i => if i = "7" then .found sampleServerMsg else .missing,
    provRes := fun _ => none, calls := [] }

/-- The sample service with its connection down. -/
def sampleDisconnected : ImapState := { sampleConnected with connected := false }

theorem protected_folder_policy_witness :
    sampleConnected.connected = true ∧
    isProtectedFolder "inbox" = true ∧
    (deleteFolder sampleConnected "inbox"
        = (.error (.thrown ("Cannot delete protected folder: " ++ "inbox")),
           sampleConnected) ∧
     renameFolder sampleConnected "inbox" "NewName"
        = (.error (.thrown ("Cannot rename protected folder: " ++ "inbox")),
           sampleConnected) ∧
     (createFolder sampleConnected "inbox").2.calls
        = sampleConnected.calls ++ [ProviderCall.mailboxCreate "inbox"]) :=
  ⟨rfl, by decide, protected_folder_policy sampleConnected "inbox" "NewName" rfl (by decide)⟩

/-! ## Claim C2 — disposition of the mutating operations -/

theorem getEmailById_shape (st : ImapState) (emailId : String) :
    ∃ c, (getEmailById st emailId).2 = { st with emailCache := c } := by
  unfold getEmailById
  cases h : lookupA st.emailCache emailId with
  | some e => exact ⟨st.emailCache, rfl⟩
  | none =>
    dsimp only
    by_cases hc : st.connected = false
    · rw [if_pos hc]
      exact ⟨st.emailCache, rfl⟩
    · rw [if_neg hc]
      cases hf : st.serverFetch emailId with
      | found e => exact ⟨setCacheEntry st.emailCache e.id e, rfl⟩
      | missing => exact ⟨st.emailCache, rfl⟩
      | failed pe => exact ⟨st.emailCache, rfl⟩

theorem markEmailRead_connected (st : ImapState) (emailId : String) (v : Bool)
    (hc : st.connected = true) :
    ((markEmailRead st emailId v).1 = .ok true ∧
      (markEmailRead st emailId v).2.calls
        = st.calls ++ [if v then ProviderCall.messageFlagsAdd emailId "\\Seen"
                       else ProviderCall.messageFlagsRemove emailId "\\Seen"]) ∨
    (∃ e, (markEmailRead st emailId v).1 = .error e) := by
  have hne : ¬ st.connected = false := by simp [hc]
  obtain ⟨c, hshape⟩ := getEmailById_shape st emailId
  unfold markEmailRead
  rw [if_neg hne]
  rcases hg : getEmailById st emailId with ⟨r, st1⟩
  rw [hg] at hshape
  have hst1 : st1 = { st with emailCache := c } := hshape
  subst hst1
  cases r with
  | error e => exact Or.inr ⟨e, rfl⟩
  | ok o =>
    cases o with
    | none => exact Or.inr ⟨_, rfl⟩
    | some em =>
      dsimp only
      cases hpr : st.provRes (if v then ProviderCall.messageFlagsAdd emailId "\\Seen"
          else ProviderCall.messageFlagsRemove emailId "\\Seen") with
      | some pe => exact Or.inr ⟨.provider pe, rfl⟩
      | none => exact Or.inl ⟨rfl, rfl⟩

theorem starEmail_connected (st : ImapState) (emailId : String) (v : Bool)
    (hc : st.connected = true) :
    ((starEmail st emailId v).1 = .ok true ∧
      (starEmail st emailId v).2.calls
        = st.calls ++ [if v then ProviderCall.messageFlagsAdd emailId "\\Flagged"
                       else ProviderCall.messageFlagsRemove emailId "\\Flagged"]) ∨
    (∃ e, (starEmail st emailId v).1 = .error e) := by
  have hne : ¬ st.connected = false := by simp [hc]
  obtain ⟨c, hshape⟩ := getEmailById_shape st emailId
  unfold starEmail
  rw [if_neg hne]
  rcases hg : getEmailById st emailId with ⟨r, st1⟩
  rw [hg] at hshape
  have hst1 : st1 = { st with emailCache := c } := hshape
  subst hst1
  cases r with
  | error e => exact Or.inr ⟨e, rfl⟩
  | ok o =>
    cases o with
    | none => exact Or.inr ⟨_, rfl⟩
    | some em =>
      dsimp only
      cases hpr : st.provRes (if v then ProviderCall.messageFlagsAdd emailId "\\Flagged"
          else ProviderCall.messageFlagsRemove emailId "\\Flagged") with
      | some pe => exact Or.inr ⟨.provider pe, rfl⟩
      | none => exact Or.inl ⟨rfl, rfl⟩

theorem moveEmail_connected (st : ImapState) (emailId targetFolder : String)
    (hc : st.connected = true) :
    ((moveEmail st emailId targetFolder).1 = .ok true ∧
      (moveEmail st emailId targetFolder).2.calls
        = st.calls ++ [ProviderCall.messageMove emailId targetFolder]) ∨
    (∃ e, (moveEmail st emailId targetFolder).1 = .error e) := by
  have hne : ¬ st.connected = false := by simp [hc]
  obtain ⟨c, hshape⟩ := getEmailById_shape st emailId
  unfold moveEmail
  rw [if_neg hne]
  rcases hg : getEmailById st emailId with ⟨r, st1⟩
  rw [hg] at hshape
  have hst1 : st1 = { st with emailCache := c } := hshape
  subst hst1
  cases r with
  | error e => exact Or.inr ⟨e, rfl⟩
  | ok o =>
    cases o with
    | none => exact Or.inr ⟨_, rfl⟩
    | some em =>
      dsimp only
      cases hpr : st.provRes (ProviderCall.messageMove emailId targetFolder) with
      | some pe => exact Or.inr ⟨.provider pe, rfl⟩
      | none => exact Or.inl ⟨rfl, rfl⟩

theorem deleteEmail_connected (st : ImapState) (emailId : String)
    (hc : st.connected = true) :
    ((deleteEmail st emailId).1 = .ok true ∧
      (deleteEmail st emailId).2.calls
        = st.calls ++ [ProviderCall.messageDelete emailId]) ∨
    (∃ e, (deleteEmail st emailId).1 = .error e) := by
  have hne : ¬ st.connected = false := by simp [hc]
  obtain ⟨c, hshape⟩ := getEmailById_shape st emailId
  unfold deleteEmail
  rw [if_neg hne]
  rcases hg : getEmailById st emailId with ⟨r, st1⟩
  rw [hg] at hshape
  have hst1 : st1 = { st with emailCache := c } := hshape
  subst hst1
  cases r with
  | error e => exact Or.inr ⟨e, rfl⟩
  | ok o =>
    cases o with
    | none => exact Or.inr ⟨_, rfl⟩
    | some em =>
      dsimp only
      cases hpr : st.provRes (ProviderCall.messageDelete emailId) with
      | some pe => exact Or.inr ⟨.provider pe, rfl⟩
      | none => exact Or.inl ⟨rfl, rfl⟩

/-- C2 (amended): on a connected service each mutating operation
(`markEmailRead`, `starEmail`, `moveEmail`, `deleteEmail`) either performs
its provider mutation — returning `true` with the corresponding provider
call appended to the trace — or throws (the not-found error or a propagated
provider error); but when the service is disconnected each of the four
operations returns `false` normally with the state (cache and call trace)
completely unchanged, i.e. it silently no-ops. -/
theorem mutating_ops_disposition (st : ImapState) (emailId targetFolder : String)
    (v : Bool) :
    (st.connected = false →
      markEmailRead st emailId v = (.ok false, st) ∧
      starEmail st emailId v = (.ok false, st) ∧
      moveEmail st emailId targetFolder = (.ok false, st) ∧
      deleteEmail st emailId = (.ok false, st)) ∧
    (st.connected = true →
      (((markEmailRead st emailId v).1 = .ok true ∧
         (markEmailRead st emailId v).2.calls
           = st.calls ++ [if v then ProviderCall.messageFlagsAdd emailId "\\Seen"
                          else ProviderCall.messageFlagsRemove emailId "\\Seen"]) ∨
        (∃ e, (markEmailRead st emailId v).1 = .error e)) ∧
      (((starEmail st emailId v).1 = .ok true ∧
         (starEmail st emailId v).2.calls
           = st.calls ++ [if v then ProviderCall.messageFlagsAdd emailId "\\Flagged"
                          else ProviderCall.messageFlagsRemove emailId "\\Flagged"]) ∨
        (∃ e, (starEmail st emailId v).1 = .error e)) ∧
      (((moveEmail st emailId targetFolder).1 = .ok true ∧
         (moveEmail st emailId targetFolder).2.calls
           = st.calls ++ [ProviderCall.messageMove emailId targetFolder]) ∨
        (∃ e, (moveEmail st emailId targetFolder).1 = .error e)) ∧
      (((deleteEmail st emailId).1 = .ok true ∧
         (deleteEmail st emailId).2.calls
           = st.calls ++ [ProviderCall.messageDelete emailId]) ∨
        (∃ e, (deleteEmail st emailId).1 = .error e))) := by
  constructor
  · intro h
    refine ⟨?_, ?_, ?_, ?_⟩
    · unfold markEmailRead
      rw [if_pos h]
    · unfold starEmail
      rw [if_pos h]
    · unfold moveEmail
      rw [if_pos h]
    · unfold deleteEmail
      rw [if_pos h]
  · intro h
    exact ⟨markEmailRead_connected st emailId v h, starEmail_connected st emailId v h,
      moveEmail_connected st emailId targetFolder h, deleteEmail_connected st emailId h⟩

/-- C2 counterexample: on a disconnected service `markEmailRead` returns
normally with `false` — neither reporting success nor throwing — and
mutates nothing (the state, cache and provider-call trace included, is
unchanged), so a mutating operation attempted while disconnected does
silently no-op, contrary to the claim. -/
theorem markEmailRead_disconnected_counterexample :
    (markEmailRead sampleDisconnected "7" true).1 = .ok false ∧
    (markEmailRead sampleDisconnected "7" true).2 = sampleDisconnected ∧
    (markEmailRead sampleDisconnected "7" true).1 ≠ .ok true ∧
    (∀ e : MailErr, (markEmailRead sampleDisconnected "7" true).1 ≠ .error e) := by
  have hr : (markEmailRead sampleDisconnected "7" true).1 = .ok false := rfl
  refine ⟨rfl, rfl, ?_, ?_⟩
  · rw [hr]
    intro hcontra
    simp at hcontra
  · intro e
    rw [hr]
    intro hcontra
    exact Except.noConfusion hcontra

theorem mutating_ops_disposition_witness :
    sampleConnected.connected = true ∧
    (((markEmailRead sampleConnected "7" true).1 = .ok true ∧
       (markEmailRead sampleConnected "7" true).2.calls
         = sampleConnected.calls
             ++ [if true then ProviderCall.messageFlagsAdd "7" "\\Seen"
                 else ProviderCall.messageFlagsRemove "7" "\\Seen"]) ∨
      (∃ e, (markEmailRead sampleConnected "7" true).1 = .error e)) :=
  ⟨rfl, ((mutating_ops_disposition sampleConnected "7" "Archive" true).2 rfl).1⟩

/-! ## Claim C3 — the `getEmails` sequence range

`getEmails` (connected path) computes
`start = Math.max(1, total - offset - limit + 1)` and
`end = Math.max(1, total - offset)` over the folder's total message count,
returns `[]` when `start > end || total === 0`, fetches the sequence range
`start:end`, skips per-message parse failures, and reverses the result.
The mailbox is embedded as a list whose position `k` holds sequence number
`k + 1` (oldest first, higher sequence numbers more recent); `some m` is a
message parsing into `m` and `none` one that is skipped (missing source or
parse failure).  Caching and body truncation, orthogonal to the range
claim, are covered elsewhere. -/

/-- The range/fetch/reverse skeleton of `getEmails`. -/
def getEmailsSeq (mbox : List (Option EmailMessage)) (limit offset : Nat) :
    List EmailMessage :=
  let total := mbox.length
  let start : Int := max 1 ((total : Int) - offset - limit + 1)
  let stop : Int := max 1 ((total : Int) - offset)
  if start > stop ∨ total = 0 then []
  else
    (((mbox.drop (start.toNat - 1)).take (stop.toNat - start.toNat + 1)).filterMap id).reverse

/-- C3 counterexample: a folder holding one parsable message, `limit 1`,
`offset 1`: the offset is not below the total count, yet the clamps give the
range `1:1` and the call returns the oldest message instead of the claimed
empty list. -/
theorem getEmails_offset_beyond_total_counterexample :
    getEmailsSeq [some sampleServerMsg] 1 1 = [sampleServerMsg] ∧
    getEmailsSeq [some sampleServerMsg] 1 1 ≠ [] := by
  refine ⟨rfl, ?_⟩
  intro h
  rw [show getEmailsSeq [some sampleServerMsg] 1 1 = [sampleServerMsg] from rfl] at h
  simp at h

/-- C3 (amended): for `limit ≥ 1`, (1) an empty folder yields the empty
list; (2) for `offset < total` the call returns the slice of the `limit`
most recent messages that precede the `offset` newest ones — i.e. the
reverse-chronological suffix `drop offset / take limit` of the mailbox read
newest-first — with unparsable messages skipped; offset 0 is exactly the
`limit` most recently-arrived messages, newest first; (3) but for
`offset ≥ total` with a nonempty folder the `Math.max` clamps collapse the
range to `1:1` and the call returns the folder's oldest message (when it
parses) rather than the empty list the specification describes. -/
theorem getEmails_range_spec (mbox : List (Option EmailMessage)) (L O : Nat)
    (hL : 1 ≤ L) :
    (mbox.length = 0 → getEmailsSeq mbox L O = []) ∧
    (O < mbox.length →
      getEmailsSeq mbox L O = ((mbox.reverse.drop O).take L).filterMap id) ∧
    (mbox.length ≤ O → 0 < mbox.length →
      getEmailsSeq mbox L O = (mbox.take 1).filterMap id) := by
  refine ⟨?_, ?_, ?_⟩
  · intro h
    simp [getEmailsSeq, h]
  · intro hO
    simp only [getEmailsSeq]
    by_cases hcase : (1 : Int) ≤ (mbox.length : Int) - O - L + 1
    · have hstart : max 1 ((mbox.length : Int) - O - L + 1)
          = (mbox.length : Int) - O - L + 1 := max_eq_right hcase
      have hstop : max 1 ((mbox.length : Int) - O) = (mbox.length : Int) - O :=
        max_eq_right (by omega)
      rw [hstart, hstop]
      have hcond : ¬ ((mbox.length : Int) - O - L + 1 > (mbox.length : Int) - O
          ∨ mbox.length = 0) := by omega
      rw [if_neg hcond]
      have h1 : ((mbox.length : Int) - O - L + 1).toNat - 1 = mbox.length - O - L := by
        omega
      have h2 : ((mbox.length : Int) - O).toNat
          - ((mbox.length : Int) - O - L + 1).toNat + 1 = L := by omega
      rw [h1, h2, ← List.filterMap_reverse]
      congr 1
      rw [List.reverse_take, List.reverse_drop]
      simp only [List.length_drop]
      have e1 : mbox.length - (mbox.length - O - L) = O + L := by omega
      rw [e1]
      have e2 : O + L - L = O := by omega
      rw [e2, List.drop_take]
      have e3 : O + L - O = L := by omega
      rw [e3]
    · have hstart : max 1 ((mbox.length : Int) - O - L + 1) = 1 :=
        max_eq_left (by omega)
      have hstop : max 1 ((mbox.length : Int) - O) = (mbox.length : Int) - O :=
        max_eq_right (by omega)
      rw [hstart, hstop]
      have hcond : ¬ ((1 : Int) > (mbox.length : Int) - O ∨ mbox.length = 0) := by
        omega
      rw [if_neg hcond]
      have h1 : (1 : Int).toNat - 1 = 0 := by omega
      have h2 : ((mbox.length : Int) - O).toNat - (1 : Int).toNat + 1
          = mbox.length - O := by omega
      rw [h1, h2, List.drop_zero, ← List.filterMap_reverse]
      congr 1
      rw [List.reverse_take]
      have e1 : mbox.length - (mbox.length - O) = O := by omega
      rw [e1]
      refine (List.take_all_of_le ?_).symm
      simp only [List.length_drop, List.length_reverse]
      omega
  · intro hO hT
    simp only [getEmailsSeq]
    have hstart : max 1 ((mbox.length : Int) - O - L + 1) = 1 :=
      max_eq_left (by omega)
    have hstop : max 1 ((mbox.length : Int) - O) = 1 := max_eq_left (by omega)
    rw [hstart, hstop]
    have hcond : ¬ ((1 : Int) > (1 : Int) ∨ mbox.length = 0) := by omega
    rw [if_neg hcond]
    have h1 : (1 : Int).toNat - 1 = 0 := by omega
    have h2 : (1 : Int).toNat - (1 : Int).toNat + 1 = 1 := by omega
    rw [h1, h2, List.drop_zero]
    cases mbox with
    | nil => simp at hT
    | cons m rest =>
      cases m with
      | none => simp [List.filterMap]
      | some x => simp [List.filterMap]

theorem getEmails_range_spec_witness :
    (1 : Nat) ≤ 2 ∧ (0 : Nat) < 1 ∧
    getEmailsSeq [some sampleServerMsg] 2 0
      = (([some sampleServerMsg].reverse.drop 0).take 2).filterMap id :=
  ⟨by decide, by decide,
   (getEmails_range_spec [some sampleServerMsg] 2 0 (by decide)).2.1 (by decide)⟩

/-! ## Claim C10 — `searchEmails` criteria construction -/

/-- `SearchEmailOptions` from `src/types/index.ts` (the fields consumed by
`searchEmails`' criteria construction; `query` and `hasAttachment` are
declared but never read there). -/
structure SearchEmailOptions where
  folder : Option String
  fromAddr : Option String
  toAddr : Option String
  subject : Option String
  dateFrom : Option String
  dateTo : Option String
  isRead : Option Bool
  isStarred : Option Bool
  limit : Option Nat
deriving DecidableEq, Repr

/-- The provider search predicate assembled by `searchEmails`
(`searchCriteria`): each field is set (`some`) exactly when the
corresponding `if` in the source assigns it. -/
structure SearchCriteria where
  fromAddr : Option String
  toAddr : Option String
  subject : Option String
  since : Option String
  before : Option String
  seen : Option Bool
  unseen : Option Bool
  flagged : Option Bool
deriving DecidableEq, Repr

/-- The `searchCriteria` construction inside `searchEmails`
(`src/services/simple-imap-service.ts` lines 366-386): `from`/`to`/
`subject`/`since`/`before` copy the options when present; `isRead` is
translated in both polarities (`seen := true` when `some true`,
`unseen := true` when `some false`); `isStarred` sets `flagged := true` only
when `some true` — its `false` case falls through the inner `if` with no
criterion added. -/
def buildSearchCriteria (o : SearchEmailOptions) : SearchCriteria :=
  { fromAddr := o.fromAddr
    toAddr := o.toAddr
    subject := o.subject
    since := o.dateFrom
    before := o.dateTo
    seen := if o.isRead = some true then some true else none
    unseen := if o.isRead = some false then some true else none
    flagged := if o.isStarred = some true then some true else none }

/-- C10: the read filter reaches the provider in both polarities —
`isRead = true` sets the `seen` criterion and `isRead = false` sets the
`unseen` criterion — but the starred filter is translated only when `true`:
for every options value, setting `isStarred := false` builds a predicate
identical to leaving `isStarred` undefined, so a search restricted to
unstarred messages cannot be expressed. -/
theorem searchCriteria_polarity (o : SearchEmailOptions) :
    (buildSearchCriteria { o with isRead := some true }).seen = some true ∧
    (buildSearchCriteria { o with isRead := some false }).unseen = some true ∧
    buildSearchCriteria { o with isStarred := some false }
      = buildSearchCriteria { o with isStarred := none } := by
  refine ⟨rfl, rfl, rfl⟩

/-! ## Claim C9 — the `bulk_delete_emails` tool always fails

`src/index.ts` line 820 dispatches the `bulk_delete_emails` tool to
`imapService.bulkDeleteEmails(...)`, but `SimpleIMAPService` defines no
method of that name, so the JS property access yields `undefined` and the
call raises `TypeError: imapService.bulkDeleteEmails is not a function`,
which the handler's catch-all turns into the structured error payload with
`isError: true`.  The method surface of the class is embedded as the list of
its declared method names; dispatch is modelled as: succeed only if the
method exists, otherwise raise the TypeError message into the catch-all. -/

/-- Every method declared on the `SimpleIMAPService` class
(`src/services/simple-imap-service.ts`). -/
def simpleIMAPServiceMethods : List String :=
  ["connect", "disconnect", "reconnect", "ensureConnection", "isActive",
   "getFolders", "getEmails", "getEmailById", "searchEmails", "markEmailRead",
   "starEmail", "moveEmail", "bulkMoveEmails", "deleteEmail", "createFolder",
   "deleteFolder", "renameFolder", "clearCache"]

/-- A tool response of the MCP surface: the text content and the
`isError` marker. -/
structure ToolResponse where
  text : String
  isError : Bool
deriving DecidableEq, Repr

/-- The `bulk_delete_emails` dispatch body: invoking
`imapService.bulkDeleteEmails` succeeds only if such a method exists on the
class; otherwise it raises the TypeError that calling `undefined`
produces.  (The success text abbreviates the summary string the handler
would build from a result, were the method ever to exist.) -/
def bulkDeleteDispatch : Except String String :=
  if "bulkDeleteEmails" ∈ simpleIMAPServiceMethods then
    .ok "✅ Bulk delete completed"
  else
    .error "imapService.bulkDeleteEmails is not a function"

/-- The tool surface around the `bulk_delete_emails` case: a thrown error is
caught and returned as the structured payload `❌ Error: <message>` with
`isError: true` (`src/index.ts` lines 980-992). -/
def callToolBulkDelete : ToolResponse :=
  match bulkDeleteDispatch with
  | .ok t => ⟨t, false⟩
  | .error m => ⟨"❌ Error: " ++ m, true⟩

/-- C9: `bulkDeleteEmails` is not among the methods of `SimpleIMAPService`,
so every invocation of the `bulk_delete_emails` tool takes the catch-all
path and returns the structured error payload with `isError = true` — no
deletion is ever performed through this tool. -/
theorem bulkDeleteEmails_tool_always_fails :
    ("bulkDeleteEmails" ∈ simpleIMAPServiceMethods ↔ False) ∧
    callToolBulkDelete.isError = true ∧
    callToolBulkDelete.text
      = "❌ Error: " ++ "imapService.bulkDeleteEmails is not a function" := by
  refine ⟨?_, rfl, rfl⟩
  simp [simpleIMAPServiceMethods]

/-! ## Claim C4 — `bulkMoveEmails` aggregate result

`bulkMoveEmails` throws when disconnected; otherwise a first pass resolves
every identifier through `getEmailById` — recording a not-found or fetch
error as an individual failure — and groups resolvable identifiers by their
source folder (a JS `Map` in insertion order); a second pass walks the
groups issuing one `messageMove` per identifier, counting successes (with a
cache folder update) and recording per-identifier move failures. -/

/-- The aggregate `{ success, failed, errors }` accumulated by
`bulkMoveEmails`. -/
structure BulkResult where
  success : Nat
  failed : Nat
  errors : List String
deriving DecidableEq, Repr

/-- The grouping step `emailsByFolder.get(folder)!.push(emailId)` (with
`set(folder, [])` first when absent). -/
def groupAdd (groups : List (String × List String)) (folder emailId : String) :
    List (String × List String) :=
  match lookupA groups folder with
  | some _ => groups.map (fun p => if p.1 = folder then (p.1, p.2 ++ [emailId]) else p)
  | none => groups ++ [(folder, [emailId])]

/-- One iteration of the first (resolution) pass of `bulkMoveEmails`. -/
def bulkFetchStep (acc : BulkResult × List (String × List String) × ImapState)
    (emailId : String) : BulkResult × List (String × List String) × ImapState :=
  match getEmailById acc.2.2 emailId with
  | (.error e, st1) =>
    ({ acc.1 with
        failed := acc.1.failed + 1
        errors := acc.1.errors ++ ["Error fetching email " ++ emailId ++ ": " ++ e.text] },
     acc.2.1, st1)
  | (.ok none, st1) =>
    ({ acc.1 with
        failed := acc.1.failed + 1
        errors := acc.1.errors ++ ["Email " ++ emailId ++ " not found"] },
     acc.2.1, st1)
  | (.ok (some em), st1) => (acc.1, groupAdd acc.2.1 em.folder emailId, st1)

/-- One iteration of the second (move) pass of `bulkMoveEmails`. -/
def bulkMoveOne (targetFolder : String) (acc : BulkResult × ImapState)
    (emailId : String) : BulkResult × ImapState :=
  let call := ProviderCall.messageMove emailId targetFolder
  let st1 := { acc.2 with calls := acc.2.calls ++ [call] }
  match acc.2.provRes call with
  | some pe =>
    ({ acc.1 with
        failed := acc.1.failed + 1
        errors := acc.1.errors
          ++ ["Failed to move email " ++ emailId ++ ": " ++ pe.message] },
     st1)
  | none =>
    ({ acc.1 with success := acc.1.success + 1 },
     { st1 with emailCache := setFolderField st1.emailCache emailId targetFolder })

/-- `bulkMoveEmails` from `SimpleIMAPService`. -/
def bulkMoveEmails (st : ImapState) (emailIds : List String) (targetFolder : String) :
    Except MailErr BulkResult × ImapState :=
  if st.connected = false then (.error (.thrown "IMAP client not connected"), st)
  else
    let p1 := emailIds.foldl bulkFetchStep (⟨0, 0, []⟩, [], st)
    let p2 := p1.2.1.foldl (fun acc g => g.2.foldl (bulkMoveOne targetFolder) acc)
      (p1.1, p1.2.2)
    (.ok p2.1, p2.2)

/-- All identifiers stored in the folder grouping, in iteration order. -/
def flattenIds (groups : List (String × List String)) : List String :=
  (groups.map (fun p => p.2)).flatten

theorem lookupA_mapUpdate {α : Type} (m : List (String × α)) (k : String) (g : α → α)
    (a : String) :
    lookupA (m.map (fun p => if p.1 = k then (p.1, g p.2) else p)) a
      = if a = k then (lookupA m a).map g else lookupA m a := by
  induction m with
  | nil => by_cases h : a = k <;> simp [lookupA, h]
  | cons p rest ih =>
    by_cases hpk : p.1 = k
    · by_cases hpa : p.1 = a
      · have hak : a = k := hpa ▸ hpk
        simp [lookupA, hpk, hpa, hak]
      · simp only [List.map_cons, if_pos hpk, lookupA, if_neg hpa]
        simp only [lookupA, if_neg hpa] at ih ⊢
        exact ih
    · by_cases hpa : p.1 = a
      · have hak : ¬ a = k := fun h => hpk (hpa.trans h)
        simp [lookupA, hpk, hpa, hak]
      · simp only [List.map_cons, if_neg hpk, lookupA, if_neg hpa]
        exact ih

theorem lookupA_setFolderField (cache : List (String × EmailMessage)) (x target a : String) :
    lookupA (setFolderField cache x target) a
      = if a = x then (lookupA cache a).map (fun e => { e with folder := target })
        else lookupA cache a := by
  simpa using lookupA_mapUpdate cache x (fun e => { e with folder := target }) a

theorem lookupA_map_pairs {f : String → EmailMessage} {l : List String} {a : String}
    (ha : a ∈ l) : lookupA (l.map (fun id => (id, f id))) a = some (f a) := by
  induction l with
  | nil => simp at ha
  | cons x rest ih =>
    by_cases hx : x = a
    · subst hx
      simp [lookupA]
    · rcases List.mem_cons.1 ha with h | h
      · exact absurd h.symm hx
      · simp only [List.map_cons, lookupA, if_neg hx]
        exact ih h

theorem lookupA_map_pairs_none {f : String → EmailMessage} {l : List String} {a : String}
    (ha : a ∉ l) : lookupA (l.map (fun id => (id, f id))) a = none := by
  induction l with
  | nil => rfl
  | cons x rest ih =>
    have hx : ¬ x = a := fun h => ha (by simp [h])
    simp only [List.map_cons, lookupA, if_neg hx]
    exact ih (fun h => ha (List.mem_cons.2 (Or.inr h)))

theorem getEmailById_found (base : ImapState) (cache : List (String × EmailMessage))
    (emailId : String) (em : EmailMessage)
    (hc : base.connected = true)
    (hfresh : lookupA cache emailId = none)
    (hf : base.serverFetch emailId = .found em)
    (hid : em.id = emailId) :
    getEmailById { base with emailCache := cache } emailId
      = (.ok (some em), { base with emailCache := cache ++ [(emailId, em)] }) := by
  unfold getEmailById
  dsimp only
  rw [hfresh]
  have hnc : ¬ base.connected = false := by simp [hc]
  rw [if_neg hnc, hf]
  dsimp only
  unfold setCacheEntry
  rw [hid, hfresh]

theorem getEmailById_missing (base : ImapState) (cache : List (String × EmailMessage))
    (emailId : String)
    (hc : base.connected = true)
    (hfresh : lookupA cache emailId = none)
    (hm : base.serverFetch emailId = .missing) :
    getEmailById { base with emailCache := cache } emailId
      = (.ok none, { base with emailCache := cache }) := by
  unfold getEmailById
  dsimp only
  rw [hfresh]
  have hnc : ¬ base.connected = false := by simp [hc]
  rw [if_neg hnc, hm]

theorem bulkFetch_good_segment (base : ImapState) (f : String → EmailMessage)
    (l : List String) (res : BulkResult) (groups : List (String × List String))
    (cache : List (String × EmailMessage))
    (hc : base.connected = true)
    (hgood : ∀ id ∈ l, base.serverFetch id = .found (f id) ∧ (f id).id = id)
    (hfresh : ∀ id ∈ l, lookupA cache id = none)
    (hnd : l.Nodup) :
    l.foldl bulkFetchStep (res, groups, { base with emailCache := cache })
      = (res, l.foldl (fun g id => groupAdd g (f id).folder id) groups,
         { base with emailCache := cache ++ l.map (fun id => (id, f id)) }) := by
  induction l generalizing groups cache with
  | nil => simp
  | cons id rest ih =>
    have hmem : id ∈ id :: rest := List.mem_cons_self id rest
    have hstep : bulkFetchStep (res, groups, { base with emailCache := cache }) id
        = (res, groupAdd groups (f id).folder id,
           { base with emailCache := cache ++ [(id, f id)] }) := by
      unfold bulkFetchStep
      rw [show (res, groups, ({ base with emailCache := cache } : ImapState)).2.2
          = ({ base with emailCache := cache } : ImapState) from rfl]
      rw [getEmailById_found base cache id (f id) hc (hfresh id hmem)
        (hgood id hmem).1 (hgood id hmem).2]
    rw [List.foldl_cons, hstep,
      ih (groupAdd groups (f id).folder id) (cache ++ [(id, f id)])
        (fun i hi => hgood i (List.mem_cons.2 (Or.inr hi)))
        (fun i hi => by
          rw [lookupA_append_of_none _ (hfresh i (List.mem_cons.2 (Or.inr hi)))]
          have hne : ¬ id = i := fun h => (List.nodup_cons.1 hnd).1 (h ▸ hi)
          simp [lookupA, hne])
        (List.nodup_cons.1 hnd).2]
    simp [List.append_assoc]

theorem bulkMoveOne_ok (targetFolder : String) (res : BulkResult) (st : ImapState)
    (emailId : String)
    (h : st.provRes (ProviderCall.messageMove emailId targetFolder) = none) :
    bulkMoveOne targetFolder (res, st) emailId
      = ({ res with success := res.success + 1 },
         { st with
           emailCache := setFolderField st.emailCache emailId targetFolder
           calls := st.calls ++ [ProviderCall.messageMove emailId targetFolder] }) := by
  unfold bulkMoveOne
  dsimp only
  rw [h]

theorem bulkMove_inner (targetFolder : String) (g : List String) (res : BulkResult)
    (st : ImapState)
    (hall : ∀ id ∈ g, st.provRes (ProviderCall.messageMove id targetFolder) = none) :
    g.foldl (bulkMoveOne targetFolder) (res, st)
      = ({ res with success := res.success + g.length },
         { st with
           emailCache := g.foldl (fun c id => setFolderField c id targetFolder) st.emailCache
           calls := st.calls
             ++ g.map (fun id => ProviderCall.messageMove id targetFolder) }) := by
  induction g generalizing res st with
  | nil => simp
  | cons id rest ih =>
    rw [List.foldl_cons, bulkMoveOne_ok targetFolder res st id (hall id (by simp))]
    rw [ih { res with success := res.success + 1 }
        { st with
          emailCache := setFolderField st.emailCache id targetFolder
          calls := st.calls ++ [ProviderCall.messageMove id targetFolder] }
        (fun i hi => hall i (List.mem_cons.2 (Or.inr hi)))]
    have h1 : res.success + 1 + rest.length = res.success + (rest.length + 1) := by omega
    rw [h1]
    rw [List.append_assoc]
    rfl

theorem bulkMove_phase2 (targetFolder : String) (G : List (String × List String))
    (res : BulkResult) (st : ImapState)
    (hall : ∀ id ∈ flattenIds G,
      st.provRes (ProviderCall.messageMove id targetFolder) = none) :
    G.foldl (fun acc g => g.2.foldl (bulkMoveOne targetFolder) acc) (res, st)
      = ({ res with success := res.success + (flattenIds G).length },
         { st with
           emailCache := (flattenIds G).foldl
             (fun c id => setFolderField c id targetFolder) st.emailCache
           calls := st.calls
             ++ (flattenIds G).map
                 (fun id => ProviderCall.messageMove id targetFolder) }) := by
  induction G generalizing res st with
  | nil => simp [flattenIds]
  | cons g rest ih =>
    have hflat : flattenIds (g :: rest) = g.2 ++ flattenIds rest := by
      simp [flattenIds]
    rw [List.foldl_cons,
      bulkMove_inner targetFolder g.2 res st
        (fun i hi => hall i (by rw [hflat]; exact List.mem_append.2 (Or.inl hi)))]
    rw [ih { res with success := res.success + g.2.length }
        { st with
          emailCache := g.2.foldl (fun c id => setFolderField c id targetFolder) st.emailCache
          calls := st.calls ++ g.2.map (fun id => ProviderCall.messageMove id targetFolder) }
        (fun i hi => hall i (by rw [hflat]; exact List.mem_append.2 (Or.inr hi)))]
    rw [hflat]
    have h1 : res.success + g.2.length + (flattenIds rest).length
        = res.success + (g.2 ++ flattenIds rest).length := by
      rw [List.length_append]
      omega
    rw [h1, List.foldl_append, List.map_append, List.append_assoc]

theorem groupAdd_cons_ne {p : String × List String} {rest : List (String × List String)}
    {folder : String} (emailId : String) (h : ¬ p.1 = folder) :
    groupAdd (p :: rest) folder emailId = p :: groupAdd rest folder emailId := by
  unfold groupAdd
  simp only [lookupA, if_neg h]
  cases hr : lookupA rest folder with
  | some L =>
    simp only [List.map_cons, if_neg h]
  | none =>
    simp only [List.cons_append]

theorem groupAdd_keys {G : List (String × List String)}
    (h : G.Pairwise (fun p q => p.1 ≠ q.1)) (folder emailId : String) :
    (groupAdd G folder emailId).Pairwise (fun p q => p.1 ≠ q.1) := by
  unfold groupAdd
  cases hl : lookupA G folder with
  | some L =>
    dsimp only
    refine List.Pairwise.map _ ?_ h
    intro p q hpq
    have kp : ((if p.1 = folder then (p.1, p.2 ++ [emailId]) else p) :
        String × List String).1 = p.1 := by
      by_cases hp : p.1 = folder <;> simp [hp]
    have kq : ((if q.1 = folder then (q.1, q.2 ++ [emailId]) else q) :
        String × List String).1 = q.1 := by
      by_cases hq : q.1 = folder <;> simp [hq]
    rw [kp, kq]
    exact hpq
  | none =>
    dsimp only
    rw [List.pairwise_append]
    refine ⟨h, List.pairwise_singleton _ _, ?_⟩
    intro p hp q hq
    rw [List.mem_singleton] at hq
    subst hq
    exact lookupA_eq_none_forall hl p hp

theorem flattenIds_cons (p : String × List String) (rest : List (String × List String)) :
    flattenIds (p :: rest) = p.2 ++ flattenIds rest := by
  simp [flattenIds]

theorem flattenIds_groupAdd {G : List (String × List String)} (folder emailId : String)
    (h : G.Pairwise (fun p q => p.1 ≠ q.1)) :
    List.Perm (flattenIds (groupAdd G folder emailId)) (emailId :: flattenIds G) := by
  induction G with
  | nil =>
    have : groupAdd [] folder emailId = [(folder, [emailId])] := rfl
    rw [this, flattenIds_cons]
    exact List.Perm.refl _
  | cons p rest ih =>
    by_cases hp : p.1 = folder
    · have hmap : groupAdd (p :: rest) folder emailId
          = (p.1, p.2 ++ [emailId]) :: rest := by
        unfold groupAdd
        simp only [lookupA, if_pos hp]
        rw [List.map_cons, if_pos hp]
        congr 1
        have hall : ∀ q ∈ rest,
            (if q.1 = folder then (q.1, q.2 ++ [emailId]) else q) = q := by
          intro q hq
          have hne : p.1 ≠ q.1 := (List.pairwise_cons.1 h).1 q hq
          have : ¬ q.1 = folder := fun hx => hne (hp.trans hx.symm)
          rw [if_neg this]
        calc rest.map (fun q => if q.1 = folder then (q.1, q.2 ++ [emailId]) else q)
            = rest.map id := List.map_congr_left (fun q hq => hall q hq)
          _ = rest := List.map_id rest
      rw [hmap, flattenIds_cons, flattenIds_cons]
      have : (p.1, p.2 ++ [emailId]).2 ++ flattenIds rest
          = p.2 ++ (emailId :: flattenIds rest) := by
        rw [List.append_assoc]
        rfl
      rw [this]
      exact List.perm_middle
    · rw [groupAdd_cons_ne emailId hp, flattenIds_cons, flattenIds_cons]
      have h1 := ih (List.pairwise_cons.1 h).2
      exact ((List.Perm.append_left p.2 h1).trans List.perm_middle)

theorem flattenIds_fold (f : String → EmailMessage) (l : List String)
    (G : List (String × List String)) (hG : G.Pairwise (fun p q => p.1 ≠ q.1)) :
    List.Perm (flattenIds (l.foldl (fun g id => groupAdd g (f id).folder id) G))
      (flattenIds G ++ l) := by
  induction l generalizing G with
  | nil => simp
  | cons id rest ih =>
    rw [List.foldl_cons]
    have h1 := ih (groupAdd G (f id).folder id) (groupAdd_keys hG _ _)
    have h2 := flattenIds_groupAdd (f id).folder id hG
    have h3 : List.Perm (flattenIds (groupAdd G (f id).folder id) ++ rest)
        ((id :: flattenIds G) ++ rest) := h2.append_right rest
    have h4 : List.Perm ((id :: flattenIds G) ++ rest) (flattenIds G ++ id :: rest) := by
      rw [List.cons_append]
      exact List.perm_middle.symm
    exact (h1.trans h3).trans h4

theorem lookupA_fold_setFolder_not_mem (L : List String)
    (cache : List (String × EmailMessage)) (target a : String) (ha : a ∉ L) :
    lookupA (L.foldl (fun c id => setFolderField c id target) cache) a
      = lookupA cache a := by
  induction L generalizing cache with
  | nil => rfl
  | cons x rest ih =>
    rw [List.foldl_cons, ih _ (fun h => ha (List.mem_cons.2 (Or.inr h)))]
    rw [lookupA_setFolderField]
    have hax : ¬ a = x := fun h => ha (List.mem_cons.2 (Or.inl h))
    rw [if_neg hax]

theorem lookupA_fold_setFolder_mem (L : List String)
    (cache : List (String × EmailMessage)) (target a : String) (ha : a ∈ L) :
    lookupA (L.foldl (fun c id => setFolderField c id target) cache) a
      = (lookupA cache a).map (fun e => { e with folder := target }) := by
  induction L generalizing cache with
  | nil => simp at ha
  | cons x rest ih =>
    rw [List.foldl_cons]
    by_cases hax : a ∈ rest
    · rw [ih _ hax, lookupA_setFolderField]
      by_cases h' : a = x
      · rw [if_pos h', Option.map_map]
        have hcomp : ((fun e : EmailMessage => { e with folder := target })
            ∘ (fun e : EmailMessage => { e with folder := target }))
            = (fun e : EmailMessage => { e with folder := target }) := by
          funext e
          rfl
        rw [hcomp]
      · rw [if_neg h']
    · have hax' : a = x := by
        rcases List.mem_cons.1 ha with h | h
        · exact h
        · exact absurd h hax
      rw [lookupA_fold_setFolder_not_mem rest _ target a hax, lookupA_setFolderField,
        if_pos hax']

theorem groupAdd_fold_keys (f : String → EmailMessage) (l : List String)
    (G : List (String × List String)) (hG : G.Pairwise (fun p q => p.1 ≠ q.1)) :
    (l.foldl (fun g id => groupAdd g (f id).folder id) G).Pairwise
      (fun p q => p.1 ≠ q.1) := by
  induction l generalizing G with
  | nil => exact hG
  | cons id rest ih =>
    rw [List.foldl_cons]
    exact ih _ (groupAdd_keys hG _ _)

/-- C4: a connected bulk move over distinct identifiers in which exactly one
identifier fails to resolve (the server lookup finds nothing) while every
other identifier resolves and its `messageMove` succeeds, returns the
aggregate `success = N - 1`, `failed = 1` with the single error entry naming
the failed identifier; every successfully moved message ends with its cached
`folder` field set to the target folder, and the one failure does not abort
the remainder of the batch. -/
theorem bulkMoveEmails_single_failure (st : ImapState) (ids : List String)
    (bad targetFolder : String) (f : String → EmailMessage)
    (hc : st.connected = true)
    (hcache : st.emailCache = [])
    (hnd : ids.Nodup)
    (hbad_mem : bad ∈ ids)
    (hbad : st.serverFetch bad = .missing)
    (hgood : ∀ id ∈ ids, id ≠ bad →
      st.serverFetch id = .found (f id) ∧ (f id).id = id ∧
      st.provRes (ProviderCall.messageMove id targetFolder) = none) :
    (bulkMoveEmails st ids targetFolder).1
      = .ok ⟨ids.length - 1, 1, ["Email " ++ bad ++ " not found"]⟩ ∧
    (∀ id ∈ ids, id ≠ bad →
      lookupA (bulkMoveEmails st ids targetFolder).2.emailCache id
        = some { f id with folder := targetFolder }) := by
  obtain ⟨l₁, l₂, rfl⟩ := List.append_of_mem hbad_mem
  have hsplit := List.nodup_append.1 hnd
  have h₁ : l₁.Nodup := hsplit.1
  have hbadl₁ : bad ∉ l₁ := fun h => hsplit.2.2 h (List.mem_cons_self _ _)
  have hbadl₂ : bad ∉ l₂ := (List.nodup_cons.1 hsplit.2.1).1
  have hl₂nd : l₂.Nodup := (List.nodup_cons.1 hsplit.2.1).2
  have hdisj₁₂ : ∀ a ∈ l₁, a ∉ l₂ := fun a ha h =>
    hsplit.2.2 ha (List.mem_cons.2 (Or.inr h))
  have hgood₁ : ∀ id ∈ l₁, st.serverFetch id = .found (f id) ∧ (f id).id = id := by
    intro id hid
    have hne : id ≠ bad := fun h => hbadl₁ (h ▸ hid)
    obtain ⟨ha, hb, _⟩ := hgood id (List.mem_append.2 (Or.inl hid)) hne
    exact ⟨ha, hb⟩
  have hgood₂ : ∀ id ∈ l₂, st.serverFetch id = .found (f id) ∧ (f id).id = id := by
    intro id hid
    have hne : id ≠ bad := fun h => hbadl₂ (h ▸ hid)
    obtain ⟨ha, hb, _⟩ :=
      hgood id (List.mem_append.2 (Or.inr (List.mem_cons.2 (Or.inr hid)))) hne
    exact ⟨ha, hb⟩
  have hnc : ¬ st.connected = false := by simp [hc]
  have hstA : ({ st with emailCache := ([] : List (String × EmailMessage)) } : ImapState)
      = st := by
    rw [← hcache]
  have hph1A := bulkFetch_good_segment st f l₁ ⟨0, 0, []⟩ [] [] hc hgood₁
    (fun id _ => rfl) h₁
  have hbadstep : bulkFetchStep
      (⟨0, 0, []⟩, l₁.foldl (fun g id => groupAdd g (f id).folder id) [],
        { st with emailCache := l₁.map (fun id => (id, f id)) }) bad
      = (⟨0, 1, ["Email " ++ bad ++ " not found"]⟩,
         l₁.foldl (fun g id => groupAdd g (f id).folder id) [],
         { st with emailCache := l₁.map (fun id => (id, f id)) }) := by
    unfold bulkFetchStep
    rw [show ((⟨0, 0, []⟩ : BulkResult),
        l₁.foldl (fun g id => groupAdd g (f id).folder id) [],
        ({ st with emailCache := l₁.map (fun id => (id, f id)) } : ImapState)).2.2
        = ({ st with emailCache := l₁.map (fun id => (id, f id)) } : ImapState) from rfl]
    rw [getEmailById_missing st _ bad hc (lookupA_map_pairs_none hbadl₁) hbad]
    rfl
  have hph1B := bulkFetch_good_segment st f l₂
    ⟨0, 1, ["Email " ++ bad ++ " not found"]⟩
    (l₁.foldl (fun g id => groupAdd g (f id).folder id) [])
    (l₁.map (fun id => (id, f id))) hc hgood₂
    (fun id hid => lookupA_map_pairs_none (fun hmem => hdisj₁₂ id hmem hid)) hl₂nd
  have hph1 : (l₁ ++ bad :: l₂).foldl bulkFetchStep (⟨0, 0, []⟩, [], st)
      = (⟨0, 1, ["Email " ++ bad ++ " not found"]⟩,
         (l₁ ++ l₂).foldl (fun g id => groupAdd g (f id).folder id) [],
         { st with emailCache := (l₁ ++ l₂).map (fun id => (id, f id)) }) := by
    rw [List.foldl_append, List.foldl_cons]
    conv_lhs => rw [← hstA]
    rw [hph1A]
    rw [show (([] : List (String × EmailMessage))
        ++ l₁.map (fun id => (id, f id))) = l₁.map (fun id => (id, f id)) from rfl]
    rw [hbadstep, hph1B, ← List.map_append, ← List.foldl_append]
  have hkeys := groupAdd_fold_keys f (l₁ ++ l₂) [] List.Pairwise.nil
  have hperm : List.Perm
      (flattenIds ((l₁ ++ l₂).foldl (fun g id => groupAdd g (f id).folder id) []))
      (l₁ ++ l₂) := by
    have h := flattenIds_fold f (l₁ ++ l₂) [] List.Pairwise.nil
    simpa [flattenIds] using h
  have hgoodid : ∀ id ∈ l₁ ++ l₂,
      id ∈ l₁ ++ bad :: l₂ ∧ id ≠ bad := by
    intro id hid
    rcases List.mem_append.1 hid with h | h
    · exact ⟨List.mem_append.2 (Or.inl h), fun hx => hbadl₁ (hx ▸ h)⟩
    · exact ⟨List.mem_append.2 (Or.inr (List.mem_cons.2 (Or.inr h))),
        fun hx => hbadl₂ (hx ▸ h)⟩
  have hallmv : ∀ id ∈ flattenIds
      ((l₁ ++ l₂).foldl (fun g id => groupAdd g (f id).folder id) []),
      st.provRes (ProviderCall.messageMove id targetFolder) = none := by
    intro id hid
    have hid' : id ∈ l₁ ++ l₂ := (hperm.mem_iff).1 hid
    obtain ⟨hm, hne⟩ := hgoodid id hid'
    exact (hgood id hm hne).2.2
  have hph2 := bulkMove_phase2 targetFolder
    ((l₁ ++ l₂).foldl (fun g id => groupAdd g (f id).folder id) [])
    ⟨0, 1, ["Email " ++ bad ++ " not found"]⟩
    { st with emailCache := (l₁ ++ l₂).map (fun id => (id, f id)) }
    hallmv
  have hbulk : bulkMoveEmails st (l₁ ++ bad :: l₂) targetFolder
      = (.ok ⟨0 + (flattenIds ((l₁ ++ l₂).foldl
            (fun g id => groupAdd g (f id).folder id) [])).length, 1,
          ["Email " ++ bad ++ " not found"]⟩,
         { st with
           emailCache := (flattenIds ((l₁ ++ l₂).foldl
               (fun g id => groupAdd g (f id).folder id) [])).foldl
             (fun c id => setFolderField c id targetFolder)
             ((l₁ ++ l₂).map (fun id => (id, f id)))
           calls := st.calls
             ++ (flattenIds ((l₁ ++ l₂).foldl
                 (fun g id => groupAdd g (f id).folder id) [])).map
               (fun id => ProviderCall.messageMove id targetFolder) }) := by
    unfold bulkMoveEmails
    rw [if_neg hnc]
    dsimp only
    rw [hph1]
    dsimp only
    rw [hph2]
  have hlen : 0 + (flattenIds ((l₁ ++ l₂).foldl
      (fun g id => groupAdd g (f id).folder id) [])).length
      = (l₁ ++ bad :: l₂).length - 1 := by
    have h := hperm.length_eq
    simp only [List.length_append, List.length_cons] at h ⊢
    omega
  constructor
  · rw [hbulk]
    dsimp only
    rw [hlen]
  · intro id hid hne
    rw [hbulk]
    dsimp only
    have hid₁₂ : id ∈ l₁ ++ l₂ := by
      rcases List.mem_append.1 hid with h | h
      · exact List.mem_append.2 (Or.inl h)
      · rcases List.mem_cons.1 h with h' | h'
        · exact absurd h' hne
        · exact List.mem_append.2 (Or.inr h')
    have hidflat : id ∈ flattenIds ((l₁ ++ l₂).foldl
        (fun g id => groupAdd g (f id).folder id) []) := (hperm.mem_iff).2 hid₁₂
    rw [lookupA_fold_setFolder_mem _ _ _ _ hidflat, lookupA_map_pairs hid₁₂]
    rfl

/-- A concrete server message for each identifier in the bulk-move
scenario. -/
def bulkSampleMsg (emailId : String) : EmailMessage :=
  { sampleServerMsg with id := emailId }

/-- A connected service on which identifier `"3"` cannot be resolved while
every other identifier resolves, and every provider call succeeds. -/
def bulkSampleState : ImapState :=
  { connected := true, emailCache := [], folderCache := [],
    serverFetch := fun i => if i = "3" then .missing else .found (bulkSampleMsg i),
    provRes := fun _ => none, calls := [] }

theorem bulkMoveEmails_single_failure_witness :
    (["1", "2", "3", "4", "5"] : List String).Nodup ∧
    (bulkMoveEmails bulkSampleState ["1", "2", "3", "4", "5"] "Archive").1
      = .ok ⟨(["1", "2", "3", "4", "5"] : List String).length - 1, 1,
          ["Email " ++ "3" ++ " not found"]⟩ ∧
    lookupA (bulkMoveEmails bulkSampleState ["1", "2", "3", "4", "5"] "Archive").2.emailCache
        "5" = some { bulkSampleMsg "5" with folder := "Archive" } :=
  ⟨by decide,
   (bulkMoveEmails_single_failure bulkSampleState ["1", "2", "3", "4", "5"] "3" "Archive"
     (fun i => bulkSampleMsg i) rfl rfl (by decide) (by decide) (by decide) (by decide)).1,
   (bulkMoveEmails_single_failure bulkSampleState ["1", "2", "3", "4", "5"] "3" "Archive"
     (fun i => bulkSampleMsg i) rfl rfl (by decide) (by decide) (by decide) (by decide)).2
     "5" (by decide) (by decide)⟩
